import Mathlib

set_option maxHeartbeats 1000000

namespace FD

/-- JSON values as handled by the scaffolder (JSON.parse output and the
manifest object). Objects keep insertion order as an association list, since
JavaScript objects preserve insertion order; numbers are modelled as
integers (the manifests handled by the tool carry no fractional values). -/
inductive Json where
  | null
  | bool (b : Bool)
  | num (n : Int)
  | str (s : String)
  | arr (xs : List Json)
  | obj (kvs : List (String × Json))
deriving Repr

mutual

/-- Boolean equality on JSON values (decidable equality is derived from it,
since automatic derivation is unavailable for this nested inductive). -/
def beqV : Json → Json → Bool
  | .null, .null => true
  | .bool a, .bool b => a = b
  | .num a, .num b => a = b
  | .str a, .str b => a = b
  | .arr xs, .arr ys => beqL xs ys
  | .obj xs, .obj ys => beqM xs ys
  | _, _ => false

def beqL : List Json → List Json → Bool
  | [], [] => true
  | x :: xs, y :: ys => beqV x y && beqL xs ys
  | _, _ => false

def beqM : List (String × Json) → List (String × Json) → Bool
  | [], [] => true
  | (k1, v1) :: r1, (k2, v2) :: r2 => k1 = k2 && beqV v1 v2 && beqM r1 r2
  | _, _ => false

end

mutual

theorem beqV_iff : ∀ a b : Json, beqV a b = true ↔ a = b
  | .null, b => by cases b <;> simp [beqV]
  | .bool x, b => by cases b <;> simp [beqV]
  | .num x, b => by cases b <;> simp [beqV]
  | .str x, b => by cases b <;> simp [beqV]
  | .arr xs, b => by
      cases b <;> simp [beqV]
      exact beqL_iff xs _
  | .obj kvs, b => by
      cases b <;> simp [beqV]
      exact beqM_iff kvs _

theorem beqL_iff : ∀ a b : List Json, beqL a b = true ↔ a = b
  | [], b => by cases b <;> simp [beqL]
  | x :: xs, b => by
      cases b with
      | nil => simp [beqL]
      | cons y ys =>
          simp only [beqL, Bool.and_eq_true, List.cons.injEq]
          exact and_congr (beqV_iff x y) (beqL_iff xs ys)

theorem beqM_iff : ∀ a b : List (String × Json), beqM a b = true ↔ a = b
  | [], b => by cases b <;> simp [beqM]
  | (k1, v1) :: r1, b => by
      cases b with
      | nil => simp [beqM]
      | cons p r2 =>
          obtain ⟨k2, v2⟩ := p
          simp only [beqM, Bool.and_eq_true, List.cons.injEq, Prod.mk.injEq,
            decide_eq_true_eq]
          rw [beqV_iff v1 v2, beqM_iff r1 r2, and_assoc]

end

instance : DecidableEq Json := fun a b =>
  decidable_of_iff (beqV a b = true) (beqV_iff a b)

/-- Reading a property of a JavaScript object: first matching key, `none`
when the key is absent (JS `undefined`). -/
def getKey : List (String × Json) → String → Option Json
  | [], _ => none
  | (k', v) :: rest, k => if k' = k then some v else getKey rest k

/-- Assigning a property of a JavaScript object: overwrite in place when the
key exists (keeping its position), append otherwise. -/
def setKey : List (String × Json) → String → Json → List (String × Json)
  | [], k, v => [(k, v)]
  | (k', v') :: rest, k, v =>
      if k' = k then (k', v) :: rest else (k', v') :: setKey rest k v

def keysOf (kvs : List (String × Json)) : List String := kvs.map Prod.fst

/-- Key occurrence test for association lists. -/
def keyMem (k : String) : List (String × Json) → Bool
  | [] => false
  | (k', _) :: rest => k' = k || keyMem k rest

/-- Lines 242-247 of the execSync variant (and 462-467 of the zx variant):
`pkg["name"] = projectDir; pkg["figdata"]["id"] = projectDir`. Returns
`none` where the JavaScript original raises a TypeError: manifest that is
not an object, or a `figdata` member that is missing or not an object. -/
def customizeManifest (pkg : Json) (projectDir : String) : Option Json :=
  match pkg with
  | .obj kvs =>
    let kvs1 := setKey kvs "name" (.str projectDir)
    match getKey kvs1 "figdata" with
    | some (.obj fk) =>
        some (.obj (setKey kvs1 "figdata" (.obj (setKey fk "id" (.str projectDir)))))
    | _ => none
  | _ => none

mutual

/-- Well-formedness of a JSON value as a model of a JavaScript object graph:
no object level has duplicate keys (a JavaScript object cannot). -/
def wfV : Json → Bool
  | .null => true
  | .bool _ => true
  | .num _ => true
  | .str _ => true
  | .arr xs => wfL xs
  | .obj kvs => wfM kvs

def wfL : List Json → Bool
  | [] => true
  | x :: xs => wfV x && wfL xs

def wfM : List (String × Json) → Bool
  | [] => true
  | (k, v) :: rest => !keyMem k rest && wfV v && wfM rest

end

mutual

/-- Node count of a JSON value, used as fuel bound for the parser. -/
def sizeJ : Json → Nat
  | .null => 1
  | .bool _ => 1
  | .num _ => 1
  | .str _ => 1
  | .arr xs => 1 + sizeL xs
  | .obj kvs => 1 + sizeM kvs

def sizeL : List Json → Nat
  | [] => 1
  | x :: xs => sizeJ x + 1 + sizeL xs

def sizeM : List (String × Json) → Nat
  | [] => 1
  | (_, v) :: rest => sizeJ v + 1 + sizeM rest

end

example : customizeManifest (.obj [("name", .str "old"), ("figdata", .obj [("id", .str "old")])]) "p"
    = some (.obj [("name", .str "p"), ("figdata", .obj [("id", .str "p")])]) := by decide

example : sizeJ (.obj [("a", .arr [.num 1, .null])]) = 9 := by decide

example : wfV (.obj [("a", .num 1), ("a", .num 2)]) = false := by decide

/-- Whitespace characters skipped by JSON.parse between tokens. -/
def isWsC (c : Char) : Bool :=
  c = ' ' || c = '\n' || c = '\t' || c = '\r'

/-- Decimal digit to character. -/
def digCh (d : Nat) : Char := Char.ofNat (48 + d)

/-- Little-endian decimal digits of `n`, with explicit fuel (kernel-reducible
replacement for Nat.digits). -/
def digsAux : Nat → Nat → List Nat
  | 0, _ => []
  | f + 1, n => if n = 0 then [] else n % 10 :: digsAux f (n / 10)

/-- Decimal numeral of a natural number, as emitted by Number#toString. -/
def natStr (n : Nat) : List Char :=
  if n = 0 then ['0'] else ((digsAux n n).reverse).map digCh

/-- Lowercase hexadecimal digit, as used by JSON.stringify \u escapes. -/
def hexDig (d : Nat) : Char :=
  if d < 10 then Char.ofNat (48 + d) else Char.ofNat (87 + d)

/-- Escaping of one character inside a JSON string literal, following
JSON.stringify: quote, backslash and the named control escapes, then \u00xx
for the remaining control characters, all other characters verbatim. -/
def escC (c : Char) : List Char :=
  if c = '"' then ['\\', '"']
  else if c = '\\' then ['\\', '\\']
  else if c = Char.ofNat 8 then ['\\', 'b']
  else if c = '\t' then ['\\', 't']
  else if c = '\n' then ['\\', 'n']
  else if c = Char.ofNat 12 then ['\\', 'f']
  else if c = Char.ofNat 13 then ['\\', 'r']
  else if c.toNat < 32 then
    ['\\', 'u', '0', '0', hexDig (c.toNat / 16), hexDig (c.toNat % 16)]
  else [c]

def escL : List Char → List Char
  | [] => []
  | c :: r => escC c ++ escL r

/-- A JSON string literal: quoted and escaped. -/
def qEsc (s : String) : List Char := '"' :: (escL s.data ++ ['"'])

/-- The two-space indentation unit passed as third argument of
JSON.stringify at line 247. -/
def ind2 : List Char := [' ', ' ']

mutual

/-- JSON.stringify(v, null, 2) restricted to one value, with `gap` the
current indentation (JSON.stringify's SerializeJSONObject algorithm with a
two-space gap). -/
def strVal (gap : List Char) : Json → List Char
  | .null => ['n', 'u', 'l', 'l']
  | .num (.ofNat n) => natStr n
  | .num (.negSucc m) => '-' :: natStr (m + 1)
  | .bool true => ['t', 'r', 'u', 'e']
  | .bool false => ['f', 'a', 'l', 's', 'e']
  | .str s => qEsc s
  | .arr [] => ['[', ']']
  | .arr (x :: xs) =>
      '[' :: '\n' :: (strItems (gap ++ ind2) (x :: xs) ++ ('\n' :: gap ++ [']']))
  | .obj [] => ['\x7b', '\x7d']
  | .obj (kv :: kvs) =>
      '\x7b' :: '\n' :: (strMembers (gap ++ ind2) (kv :: kvs) ++ ('\n' :: gap ++ ['\x7d']))

/-- Array elements, one per line, separated by ",\n", each prefixed by the
(already extended) gap. -/
def strItems (gap : List Char) : List Json → List Char
  | [] => []
  | [x] => gap ++ strVal gap x
  | x :: y :: xs => gap ++ strVal gap x ++ (',' :: '\n' :: strItems gap (y :: xs))

/-- Object members, one per line: gap, quoted key, ": ", value. -/
def strMembers (gap : List Char) : List (String × Json) → List Char
  | [] => []
  | [(k, v)] => gap ++ qEsc k ++ (':' :: ' ' :: strVal gap v)
  | (k, v) :: m :: kvs =>
      gap ++ qEsc k ++ (':' :: ' ' :: strVal gap v) ++ (',' :: '\n' :: strMembers gap (m :: kvs))

end

/-- JSON.stringify(pkg, null, 2) as a String (line 247). -/
def jsonStringify2 (v : Json) : String := String.mk (strVal [] v)

example : jsonStringify2 (.obj [("name", .str "p"), ("figdata", .obj [("id", .str "p")]), ("n", .num 12), ("neg", .num (-3)), ("e", .arr []), ("l", .arr [.bool true, .null])])
    = "\x7b\n  \"name\": \"p\",\n  \"figdata\": \x7b\n    \"id\": \"p\"\n  \x7d,\n  \"n\": 12,\n  \"neg\": -3,\n  \"e\": [],\n  \"l\": [\n    true,\n    null\n  ]\n\x7d" := by decide

/-- Skip JSON whitespace. -/
def skipWs : List Char → List Char
  | [] => []
  | c :: r => if isWsC c then skipWs r else c :: r

/-- Value of one hexadecimal digit character. -/
def hexVal (c : Char) : Option Nat :=
  if 48 ≤ c.toNat ∧ c.toNat ≤ 57 then some (c.toNat - 48)
  else if 97 ≤ c.toNat ∧ c.toNat ≤ 102 then some (c.toNat - 87)
  else if 65 ≤ c.toNat ∧ c.toNat ≤ 70 then some (c.toNat - 55)
  else none

def mapCons (c : Char) : Option (List Char × List Char) → Option (List Char × List Char)
  | none => none
  | some (s, r) => some (c :: s, r)

/-- Body of a JSON string literal after the opening quote: unescape until the
closing quote, returning content and remainder. -/
def parseStrL : List Char → Option (List Char × List Char)
  | [] => none
  | c :: r =>
    if c = '"' then some ([], r)
    else if c = '\\' then
      match r with
      | [] => none
      | e :: r2 =>
        if e = '"' then mapCons '"' (parseStrL r2)
        else if e = '\\' then mapCons '\\' (parseStrL r2)
        else if e = '/' then mapCons '/' (parseStrL r2)
        else if e = 'b' then mapCons (Char.ofNat 8) (parseStrL r2)
        else if e = 'f' then mapCons (Char.ofNat 12) (parseStrL r2)
        else if e = 'n' then mapCons '\n' (parseStrL r2)
        else if e = 'r' then mapCons (Char.ofNat 13) (parseStrL r2)
        else if e = 't' then mapCons '\t' (parseStrL r2)
        else if e = 'u' then
          match r2 with
          | h1 :: h2 :: h3 :: h4 :: r3 =>
            match hexVal h1, hexVal h2, hexVal h3, hexVal h4 with
            | some a, some b, some g, some d =>
                mapCons (Char.ofNat (((a * 16 + b) * 16 + g) * 16 + d)) (parseStrL r3)
            | _, _, _, _ => none
          | _ => none
        else none
    else mapCons c (parseStrL r)

/-- Greedily take decimal digits. -/
def takeDigs : List Char → List Nat × List Char
  | [] => ([], [])
  | c :: r =>
      if c.isDigit then
        let p := takeDigs r
        ((c.toNat - 48) :: p.1, p.2)
      else ([], c :: r)

def natOfDigs (l : List Nat) : Nat := l.foldl (fun a d => 10 * a + d) 0

/-- A nonempty run of decimal digits as a natural number. -/
def parseNatL (l : List Char) : Option (Nat × List Char) :=
  match takeDigs l with
  | ([], _) => none
  | (ds, r) => some (natOfDigs ds, r)

/-- Duplicate keys in a parsed JSON text: JavaScript keeps the first
position and the last value, i.e. repeated property assignment. -/
def objFold (kvs : List (String × Json)) : List (String × Json) :=
  kvs.foldl (fun acc kv => setKey acc kv.1 kv.2) []

mutual

/-- JSON.parse on one value, fuel-indexed (fuel bounds the nesting work;
every recursive call consumes one unit). Numbers are restricted to integer
literals, matching the integer number model. -/
def parseVal : Nat → List Char → Option (Json × List Char)
  | 0, _ => none
  | f + 1, l =>
    match skipWs l with
    | [] => none
    | c :: r =>
      if c = 'n' then
        match r with
        | 'u' :: 'l' :: 'l' :: r2 => some (.null, r2)
        | _ => none
      else if c = 't' then
        match r with
        | 'r' :: 'u' :: 'e' :: r2 => some (.bool true, r2)
        | _ => none
      else if c = 'f' then
        match r with
        | 'a' :: 'l' :: 's' :: 'e' :: r2 => some (.bool false, r2)
        | _ => none
      else if c = '"' then
        match parseStrL r with
        | some (s, r2) => some (.str (String.mk s), r2)
        | none => none
      else if c = '-' then
        match parseNatL r with
        | some (n, r2) => some (.num (-(n : Int)), r2)
        | none => none
      else if c = '[' then
        match parseItems f r with
        | some (xs, r2) => some (.arr xs, r2)
        | none => none
      else if c = '\x7b' then
        match parseMembers f r with
        | some (kvs, r2) => some (.obj (objFold kvs), r2)
        | none => none
      else if c.isDigit then
        match parseNatL (c :: r) with
        | some (n, r2) => some (.num (n : Int), r2)
        | none => none
      else none

/-- Elements of an array, after the opening bracket. -/
def parseItems : Nat → List Char → Option (List Json × List Char)
  | 0, _ => none
  | f + 1, l =>
    match skipWs l with
    | [] => none
    | c :: r =>
      if c = ']' then some ([], r)
      else
        match parseVal f (c :: r) with
        | none => none
        | some (v, r2) =>
          match skipWs r2 with
          | ',' :: r3 =>
            match parseItems f r3 with
            | some (vs, r4) => some (v :: vs, r4)
            | none => none
          | c2 :: r3 => if c2 = ']' then some ([v], r3) else none
          | [] => none

/-- Members of an object, after the opening brace; returns the raw member
list in source order (duplicates folded by the caller). -/
def parseMembers : Nat → List Char → Option (List (String × Json) × List Char)
  | 0, _ => none
  | f + 1, l =>
    match skipWs l with
    | [] => none
    | c :: r =>
      if c = '\x7d' then some ([], r)
      else if c = '"' then
        match parseStrL r with
        | none => none
        | some (kChars, r1) =>
          match skipWs r1 with
          | ':' :: r2 =>
            match parseVal f r2 with
            | none => none
            | some (v, r3) =>
              match skipWs r3 with
              | ',' :: r4 =>
                match parseMembers f r4 with
                | some (kvs, r5) => some ((String.mk kChars, v) :: kvs, r5)
                | none => none
              | c2 :: r4 => if c2 = '\x7d' then some ([(String.mk kChars, v)], r4) else none
              | [] => none
          | _ => none
      else none

end

/-- JSON.parse on a whole text: one value, then only trailing whitespace. -/
def jsonParse (s : String) : Option Json :=
  match parseVal (2 * s.data.length + 2) s.data with
  | some (v, rest) => if skipWs rest = [] then some v else none
  | none => none

example : jsonParse "\x7b \"a\": [1, -20, \"x\\n\", \x7b\x7d], \"b\": null \x7d"
    = some (.obj [("a", .arr [.num 1, .num (-20), .str "x\n", .obj []]), ("b", .null)]) := by decide

example : jsonParse "\x7b\"username\": \"u\", \"token\": \"t\"\x7d"
    = some (.obj [("username", .str "u"), ("token", .str "t")]) := by decide

example : jsonParse "\x7b broken" = none := by decide

example :
    jsonParse (jsonStringify2 (.obj [("name", .str "p"), ("figdata", .obj [("id", .str "p")]), ("l", .arr [.bool true, .null, .str "a\\b\"c\x7d"])]))
    = some (.obj [("name", .str "p"), ("figdata", .obj [("id", .str "p")]), ("l", .arr [.bool true, .null, .str "a\\b\"c\x7d"])]) := by decide

/-- A character list made only of JSON whitespace. -/
abbrev wsOnly (l : List Char) : Prop := l.all isWsC = true

theorem wsOnly_nil : wsOnly [] := rfl

theorem skipWs_cons_notWs {c : Char} (h : isWsC c = false) (l : List Char) :
    skipWs (c :: l) = c :: l := by
  simp [skipWs, h]

theorem skipWs_append {ws : List Char} (h : wsOnly ws) (l : List Char) :
    skipWs (ws ++ l) = skipWs l := by
  induction ws with
  | nil => rfl
  | cons c cs ih =>
      simp only [wsOnly, List.all_cons, Bool.and_eq_true] at h
      simpa [skipWs, h.1] using ih h.2

theorem wsOnly_append {a b : List Char} (ha : wsOnly a) (hb : wsOnly b) :
    wsOnly (a ++ b) := by
  simp only [wsOnly, List.all_append, Bool.and_eq_true]
  exact ⟨ha, hb⟩

theorem isWsC_not_digit {c : Char} (h : isWsC c = true) : c.isDigit = false := by
  simp only [isWsC, Bool.or_eq_true, decide_eq_true_eq] at h
  rcases h with ((h | h) | h) | h <;> subst h <;> decide

theorem hexVal_hexDig : ∀ d < 16, hexVal (hexDig d) = some d := by decide

theorem parseStrL_escC (c : Char) (t : List Char) :
    parseStrL (escC c ++ t) = mapCons c (parseStrL t) := by
  unfold escC
  split_ifs with h1 h2 h3 h4 h5 h6 h7 h8
  · subst h1; rw [parseStrL.eq_def]; simp
  · subst h2; rw [parseStrL.eq_def]; simp
  · subst h3; rw [parseStrL.eq_def]; simp
  · subst h4; rw [parseStrL.eq_def]; simp
  · subst h5; rw [parseStrL.eq_def]; simp
  · subst h6; rw [parseStrL.eq_def]; simp
  · subst h7; rw [parseStrL.eq_def]; simp
  · -- the \u00xx escape for remaining control characters
    have hlt : c.toNat / 16 < 16 := by omega
    have hmd : c.toNat % 16 < 16 := by omega
    have hv0 : hexVal '0' = some 0 := by decide
    simp only [List.cons_append, List.nil_append]
    rw [parseStrL.eq_def]
    simp only [hv0, hexVal_hexDig _ hlt, hexVal_hexDig _ hmd]
    rw [show ((0 * 16 + 0) * 16 + c.toNat / 16) * 16 + c.toNat % 16 = c.toNat by omega]
    rw [Char.ofNat_toNat]
    simp
  · rw [parseStrL.eq_def]; simp [h1, h2]

theorem parseStrL_escL (s t : List Char) :
    parseStrL (escL s ++ '"' :: t) = some (s, t) := by
  induction s with
  | nil =>
      show parseStrL ('"' :: t) = some ([], t)
      rw [parseStrL.eq_def]; simp
  | cons c cs ih =>
      simp only [escL, List.append_assoc]
      rw [parseStrL_escC, ih]
      rfl

/-- The first character of the remainder must not be a digit for number
parsing to stop exactly at the number boundary. -/
def digitHeadB : List Char → Bool
  | [] => false
  | c :: _ => c.isDigit

theorem digCh_facts : ∀ d < 10, (digCh d).isDigit = true ∧ (digCh d).toNat = 48 + d := by
  decide

theorem takeDigs_digits : ∀ (ds : List Nat) (rest : List Char),
    (∀ d ∈ ds, d < 10) → digitHeadB rest = false →
    takeDigs (ds.map digCh ++ rest) = (ds, rest) := by
  intro ds
  induction ds with
  | nil =>
      intro rest _ hrest
      cases rest with
      | nil => rfl
      | cons c r =>
          simp only [digitHeadB] at hrest
          simp [takeDigs, hrest]
  | cons d ds ih =>
      intro rest hds hrest
      have hd : d < 10 := hds d (List.mem_cons_self d ds)
      obtain ⟨hdig, htn⟩ := digCh_facts d hd
      simp only [List.map_cons, List.cons_append, takeDigs, hdig, if_true, List.append_eq]
      rw [ih rest (fun x hx => hds x (List.mem_cons_of_mem d hx)) hrest]
      simp [htn]

theorem digsAux_eq_digits : ∀ (f n : Nat), n ≤ f → digsAux f n = Nat.digits 10 n := by
  intro f
  induction f with
  | zero =>
      intro n hn
      interval_cases n
      simp [digsAux]
  | succ f ih =>
      intro n hn
      by_cases h0 : n = 0
      · subst h0; simp [digsAux]
      · rw [digsAux, if_neg h0, Nat.digits_def' (by norm_num : 1 < 10) (Nat.pos_of_ne_zero h0)]
        rw [ih (n / 10) (by omega)]

theorem foldl_rev_digits : ∀ (l : List Nat) (acc : Nat),
    (l.reverse).foldl (fun a d => 10 * a + d) acc = acc * 10 ^ l.length + Nat.ofDigits 10 l := by
  intro l
  induction l with
  | nil => intro acc; simp [Nat.ofDigits]
  | cons d ds ih =>
      intro acc
      simp only [List.reverse_cons, List.foldl_append, List.foldl_cons, List.foldl_nil, ih,
        Nat.ofDigits_cons, List.length_cons]
      ring

theorem natOfDigs_digits (n : Nat) :
    natOfDigs ((Nat.digits 10 n).reverse) = n := by
  rw [natOfDigs, foldl_rev_digits]
  simp [Nat.ofDigits_digits]

theorem parseNatL_natStr (n : Nat) (rest : List Char) (hrest : digitHeadB rest = false) :
    parseNatL (natStr n ++ rest) = some (n, rest) := by
  by_cases h0 : n = 0
  · subst h0
    rw [natStr, if_pos rfl]
    have : ['0'] = [0].map digCh := by decide
    rw [this, parseNatL, takeDigs_digits [0] rest (by decide) hrest]
    rfl
  · rw [natStr, if_neg h0, digsAux_eq_digits n n le_rfl]
    have hlt : ∀ d ∈ (Nat.digits 10 n).reverse, d < 10 := by
      intro d hd
      exact Nat.digits_lt_base (by norm_num) (List.mem_reverse.mp hd)
    rw [parseNatL, takeDigs_digits _ rest hlt hrest]
    have hne : (Nat.digits 10 n).reverse ≠ [] := by
      simp [Nat.digits_ne_nil_iff_ne_zero, h0]
    cases hds : (Nat.digits 10 n).reverse with
    | nil => exact absurd hds hne
    | cons a l =>
        show some (natOfDigs (a :: l), rest) = some (n, rest)
        rw [← hds, natOfDigs_digits]

/-- The decimal numeral is never empty and starts with a digit character. -/
theorem natStr_head (n : Nat) : ∃ d cs, d < 10 ∧ natStr n = digCh d :: cs := by
  by_cases h0 : n = 0
  · subst h0
    exact ⟨0, [], by norm_num, by decide⟩
  · rw [natStr, if_neg h0, digsAux_eq_digits n n le_rfl]
    have hne : (Nat.digits 10 n).reverse ≠ [] := by
      simp [Nat.digits_ne_nil_iff_ne_zero, h0]
    cases hds : (Nat.digits 10 n).reverse with
    | nil => exact absurd hds hne
    | cons a l =>
        refine ⟨a, l.map digCh, ?_, by simp⟩
        exact Nat.digits_lt_base (by norm_num) (List.mem_reverse.mp (hds ▸ List.mem_cons_self a l))

theorem sizeJ_pos : ∀ v : Json, 1 ≤ sizeJ v := by
  intro v; cases v <;> simp [sizeJ]

theorem sizeL_pos : ∀ xs : List Json, 1 ≤ sizeL xs := by
  intro xs
  cases xs with
  | nil => simp [sizeL]
  | cons x xs => simp [sizeL]; omega

theorem sizeM_pos : ∀ kvs : List (String × Json), 1 ≤ sizeM kvs := by
  intro kvs; cases kvs with
  | nil => simp [sizeM]
  | cons kv rest => obtain ⟨k, v⟩ := kv; simp [sizeM]; omega

theorem strMk_data (s : String) : String.mk s.data = s := by cases s; rfl

theorem digCh_parseFacts : ∀ d < 10,
    isWsC (digCh d) = false ∧ ¬digCh d = 'n' ∧ ¬digCh d = 't' ∧ ¬digCh d = 'f' ∧
    ¬digCh d = '"' ∧ ¬digCh d = '-' ∧ ¬digCh d = '[' ∧ ¬digCh d = '\x7b' ∧
    ¬digCh d = ']' ∧ ¬digCh d = ',' ∧ ¬digCh d = '\x7d' ∧ (digCh d).isDigit = true := by
  decide

/-- The first character of a serialized value is never whitespace nor a
closing delimiter nor a comma. -/
theorem strVal_head (gap : List Char) (v : Json) :
    ∃ c cs, strVal gap v = c :: cs ∧ isWsC c = false ∧ ¬c = ']' ∧ ¬c = ',' ∧ ¬c = '\x7d' := by
  cases v with
  | null => exact ⟨'n', ['u', 'l', 'l'], rfl, by decide, by decide, by decide, by decide⟩
  | bool b =>
      cases b with
      | true => exact ⟨'t', ['r', 'u', 'e'], rfl, by decide, by decide, by decide, by decide⟩
      | false => exact ⟨'f', ['a', 'l', 's', 'e'], rfl, by decide, by decide, by decide, by decide⟩
  | num n =>
      cases n with
      | ofNat m =>
          obtain ⟨d, cs, hd, hns⟩ := natStr_head m
          obtain ⟨h1, _, _, _, _, _, _, _, h9, h10, h11, _⟩ := digCh_parseFacts d hd
          exact ⟨digCh d, cs, by rw [show strVal gap (Json.num (Int.ofNat m)) = natStr m from rfl, hns],
            h1, h9, h10, h11⟩
      | negSucc m =>
          exact ⟨'-', natStr (m + 1), rfl, by decide, by decide, by decide, by decide⟩
  | str s => exact ⟨'"', escL s.data ++ ['"'], rfl, by decide, by decide, by decide, by decide⟩
  | arr xs =>
      cases xs with
      | nil => exact ⟨'[', [']'], rfl, by decide, by decide, by decide, by decide⟩
      | cons x xs =>
          exact ⟨'[', '\n' :: (strItems (gap ++ ind2) (x :: xs) ++ ('\n' :: gap ++ [']'])), rfl,
            by decide, by decide, by decide, by decide⟩
  | obj kvs =>
      cases kvs with
      | nil => exact ⟨'\x7b', ['\x7d'], rfl, by decide, by decide, by decide, by decide⟩
      | cons kv kvs =>
          exact ⟨'\x7b', '\n' :: (strMembers (gap ++ ind2) (kv :: kvs) ++ ('\n' :: gap ++ ['\x7d'])), rfl,
            by decide, by decide, by decide, by decide⟩

theorem parseVal_null (f : Nat) {ws : List Char} (hws : wsOnly ws) (gap rest : List Char) :
    parseVal (f + 1) (ws ++ strVal gap Json.null ++ rest) = some (Json.null, rest) := by
  rw [List.append_assoc, show strVal gap Json.null = ['n', 'u', 'l', 'l'] by simp [strVal]]
  simp only [parseVal, List.cons_append, List.nil_append]
  rw [skipWs_append hws, skipWs_cons_notWs (by decide)]
  simp

theorem parseVal_bool (f : Nat) {ws : List Char} (hws : wsOnly ws) (gap rest : List Char) (b : Bool) :
    parseVal (f + 1) (ws ++ strVal gap (Json.bool b) ++ rest) = some (Json.bool b, rest) := by
  cases b with
  | true =>
      rw [List.append_assoc, show strVal gap (Json.bool true) = ['t', 'r', 'u', 'e'] by simp [strVal]]
      simp only [parseVal, List.cons_append, List.nil_append]
      rw [skipWs_append hws, skipWs_cons_notWs (by decide)]
      simp
  | false =>
      rw [List.append_assoc,
        show strVal gap (Json.bool false) = ['f', 'a', 'l', 's', 'e'] by simp [strVal]]
      simp only [parseVal, List.cons_append, List.nil_append]
      rw [skipWs_append hws, skipWs_cons_notWs (by decide)]
      simp

theorem parseVal_str (f : Nat) {ws : List Char} (hws : wsOnly ws) (gap rest : List Char) (s : String) :
    parseVal (f + 1) (ws ++ strVal gap (Json.str s) ++ rest) = some (Json.str s, rest) := by
  rw [List.append_assoc, show strVal gap (Json.str s) = '"' :: (escL s.data ++ ['"']) by simp [strVal, qEsc]]
  rw [show ('"' :: (escL s.data ++ ['"'])) ++ rest = '"' :: (escL s.data ++ '"' :: rest) by simp]
  simp only [parseVal]
  rw [skipWs_append hws, skipWs_cons_notWs (by decide)]
  simp only [parseStrL_escL s.data rest]
  simp [strMk_data]

theorem parseVal_num (f : Nat) {ws : List Char} (hws : wsOnly ws) (gap rest : List Char)
    (hrest : digitHeadB rest = false) (n : Int) :
    parseVal (f + 1) (ws ++ strVal gap (Json.num n) ++ rest) = some (Json.num n, rest) := by
  cases n with
  | ofNat m =>
      obtain ⟨d, cs, hd, hns⟩ := natStr_head m
      obtain ⟨h1, h2, h3, h4, h5, h6, h7, h8, _, _, _, h12⟩ := digCh_parseFacts d hd
      rw [List.append_assoc, show strVal gap (Json.num (Int.ofNat m)) = natStr m by simp [strVal], hns]
      simp only [List.cons_append, parseVal]
      rw [skipWs_append hws, skipWs_cons_notWs h1]
      simp only [h2, h3, h4, h5, h6, h7, h8, h12, if_false, ite_true, ite_false, if_true]
      rw [show (digCh d :: (cs ++ rest)) = (digCh d :: cs) ++ rest by simp, ← hns,
        parseNatL_natStr m rest hrest]
      simp
  | negSucc m =>
      rw [List.append_assoc,
        show strVal gap (Json.num (Int.negSucc m)) = '-' :: natStr (m + 1) by simp [strVal]]
      simp only [List.cons_append, parseVal]
      rw [skipWs_append hws, skipWs_cons_notWs (by decide)]
      simp only [parseNatL_natStr (m + 1) rest hrest]
      simp
      rw [Int.negSucc_eq]
      ring

mutual

theorem sizeJ_le : ∀ (gap : List Char) (v : Json), sizeJ v ≤ (strVal gap v).length
  | gap, .null => by simp [strVal, sizeJ]
  | gap, .bool true => by simp [strVal, sizeJ]
  | gap, .bool false => by simp [strVal, sizeJ]
  | gap, .num (.ofNat m) => by
      obtain ⟨d, cs, _, hns⟩ := natStr_head m
      simp [strVal, sizeJ, hns]
  | gap, .num (.negSucc m) => by simp [strVal, sizeJ]
  | gap, .str s => by simp [strVal, sizeJ, qEsc]
  | gap, .arr [] => by simp [strVal, sizeJ, sizeL]
  | gap, .arr (x :: xs) => by
      have h := sizeL_le (gap ++ ind2) (x :: xs) (by simp)
      simp only [strVal, sizeJ]
      simp only [List.length_cons, List.length_append]
      omega
  | gap, .obj [] => by simp [strVal, sizeJ, sizeM]
  | gap, .obj (kv :: kvs) => by
      have h := sizeM_le (gap ++ ind2) (kv :: kvs) (by simp)
      simp only [strVal, sizeJ]
      simp only [List.length_cons, List.length_append]
      omega

theorem sizeL_le : ∀ (gap : List Char) (xs : List Json), xs ≠ [] →
    sizeL xs ≤ (strItems gap xs).length + 2
  | _, [], h => absurd rfl h
  | gap, [x], _ => by
      have h := sizeJ_le gap x
      simp only [strItems, sizeL]
      simp only [List.length_append, List.length_cons]
      omega
  | gap, x :: y :: ys, _ => by
      have h1 := sizeJ_le gap x
      have h2 := sizeL_le gap (y :: ys) (by simp)
      simp only [sizeL] at h2
      simp only [strItems, sizeL]
      simp only [List.length_append, List.length_cons]
      omega

theorem sizeM_le : ∀ (gap : List Char) (kvs : List (String × Json)), kvs ≠ [] →
    sizeM kvs ≤ (strMembers gap kvs).length + 2
  | _, [], h => absurd rfl h
  | gap, [(k, v)], _ => by
      have h := sizeJ_le gap v
      simp only [strMembers, sizeM, qEsc]
      simp only [List.length_append, List.length_cons]
      omega
  | gap, (k, v) :: m :: kvs, _ => by
      have h1 := sizeJ_le gap v
      have h2 := sizeM_le gap (m :: kvs) (by simp)
      simp only [sizeM] at h2
      simp only [strMembers, sizeM, qEsc]
      simp only [List.length_append, List.length_cons]
      omega

end

theorem setKey_append {kvs : List (String × Json)} {k : String} (v : Json)
    (h : keyMem k kvs = false) : setKey kvs k v = kvs ++ [(k, v)] := by
  induction kvs with
  | nil => rfl
  | cons kv rest ih =>
      obtain ⟨k1, v1⟩ := kv
      simp only [keyMem, Bool.or_eq_false_iff, decide_eq_false_iff_not] at h
      simp only [setKey, if_neg h.1, List.cons_append]
      rw [ih h.2]

theorem keyMem_append (k : String) (a b : List (String × Json)) :
    keyMem k (a ++ b) = (keyMem k a || keyMem k b) := by
  induction a with
  | nil => simp [keyMem]
  | cons kv rest ih =>
      obtain ⟨k1, v1⟩ := kv
      simp [keyMem, ih, Bool.or_assoc]

theorem keyMem_false_ne {k : String} {kvs : List (String × Json)}
    (h : keyMem k kvs = false) : ∀ p ∈ kvs, ¬p.1 = k := by
  induction kvs with
  | nil => intro p hp; cases hp
  | cons kv rest ih =>
      obtain ⟨k1, v1⟩ := kv
      simp only [keyMem, Bool.or_eq_false_iff, decide_eq_false_iff_not] at h
      intro p hp
      rcases List.mem_cons.mp hp with h1 | h2
      · subst h1; exact h.1
      · exact ih h.2 p h2

theorem foldl_setKey : ∀ (kvs acc : List (String × Json)), wfM kvs = true →
    (∀ p ∈ kvs, keyMem p.1 acc = false) →
    List.foldl (fun a kv => setKey a kv.1 kv.2) acc kvs = acc ++ kvs := by
  intro kvs
  induction kvs with
  | nil => intro acc _ _; simp
  | cons kv rest ih =>
      intro acc hwf hacc
      obtain ⟨k, v⟩ := kv
      simp only [wfM, Bool.and_eq_true, Bool.not_eq_eq_eq_not, Bool.not_true] at hwf
      obtain ⟨⟨hkrest, _⟩, hwfrest⟩ := hwf
      simp only [List.foldl_cons]
      rw [setKey_append v (hacc (k, v) (List.mem_cons_self _ _))]
      rw [ih (acc ++ [(k, v)]) hwfrest ?_]
      · simp
      · intro p hp
        have h1 : keyMem p.1 acc = false := hacc p (List.mem_cons_of_mem _ hp)
        have h2 : ¬p.1 = k := fun he => (keyMem_false_ne hkrest p hp) he
        have h3 : keyMem p.1 [(k, v)] = false := by
          simp only [keyMem, Bool.or_false, decide_eq_false_iff_not]
          exact fun hk => h2 hk.symm
        rw [keyMem_append, h1, h3]
        rfl

theorem objFold_id {kvs : List (String × Json)} (h : wfM kvs = true) : objFold kvs = kvs := by
  rw [objFold, foldl_setKey kvs [] h (fun p _ => rfl)]
  simp

theorem wsOnly_ind2 : wsOnly ind2 := by decide

theorem wsOnly_cons {c : Char} {l : List Char} (hc : isWsC c = true) (hl : wsOnly l) :
    wsOnly (c :: l) := by
  simp only [wsOnly, List.all_cons, Bool.and_eq_true]
  exact ⟨hc, hl⟩

theorem digitHeadB_ws {ws t : List Char} {c : Char} (hws : wsOnly ws) (hc : c.isDigit = false) :
    digitHeadB (ws ++ c :: t) = false := by
  cases ws with
  | nil => exact hc
  | cons a l =>
      simp only [wsOnly, List.all_cons, Bool.and_eq_true] at hws
      exact isWsC_not_digit hws.1

/-- Round-trip statement for one value at given fuel. -/
def PvP (fuel : Nat) : Prop :=
  ∀ (v : Json) (gap ws rest : List Char), wfV v = true → wsOnly gap → wsOnly ws →
    digitHeadB rest = false → sizeJ v ≤ fuel →
    parseVal fuel (ws ++ strVal gap v ++ rest) = some (v, rest)

/-- Round-trip statement for nonempty serialized array items at given fuel. -/
def PiP (fuel : Nat) : Prop :=
  ∀ (xs : List Json) (gap ws1 ws2 rest : List Char), xs ≠ [] → wfL xs = true →
    wsOnly gap → wsOnly ws1 → wsOnly ws2 → sizeL xs ≤ fuel →
    parseItems fuel (ws1 ++ strItems gap xs ++ ws2 ++ ']' :: rest) = some (xs, rest)

/-- Round-trip statement for nonempty serialized object members at given fuel. -/
def PmP (fuel : Nat) : Prop :=
  ∀ (kvs : List (String × Json)) (gap ws1 ws2 rest : List Char), kvs ≠ [] → wfM kvs = true →
    wsOnly gap → wsOnly ws1 → wsOnly ws2 → sizeM kvs ≤ fuel →
    parseMembers fuel (ws1 ++ strMembers gap kvs ++ ws2 ++ '\x7d' :: rest) = some (kvs, rest)

theorem pv_succ (f : Nat) (hi : PiP f) (hm : PmP f) : PvP (f + 1) := by
  intro v gap ws rest hwf hgap hws hrest hsz
  cases v with
  | null => exact parseVal_null f hws gap rest
  | bool b => exact parseVal_bool f hws gap rest b
  | num n => exact parseVal_num f hws gap rest hrest n
  | str s => exact parseVal_str f hws gap rest s
  | arr xs =>
      cases xs with
      | nil =>
          have h2 : sizeJ (Json.arr []) = 2 := by simp [sizeJ, sizeL]
          have hf : 1 ≤ f := by omega
          obtain ⟨f2, rfl⟩ : ∃ f2, f = f2 + 1 := ⟨f - 1, by omega⟩
          rw [List.append_assoc, show strVal gap (Json.arr []) = ['[', ']'] by simp [strVal]]
          simp only [parseVal, List.cons_append, List.nil_append]
          rw [skipWs_append hws, skipWs_cons_notWs (by decide)]
          simp only [parseItems]
          rw [skipWs_cons_notWs (by decide)]
          simp
      | cons x xs =>
          rw [List.append_assoc, show strVal gap (Json.arr (x :: xs))
              = '[' :: '\n' :: (strItems (gap ++ ind2) (x :: xs) ++ ('\n' :: gap ++ [']']))
              by simp [strVal]]
          simp only [parseVal, List.cons_append, List.nil_append]
          rw [skipWs_append hws, skipWs_cons_notWs (by decide)]
          have hwf2 : wfL (x :: xs) = true := by simpa [wfV] using hwf
          have hsz2 : sizeL (x :: xs) ≤ f := by
            have : sizeJ (Json.arr (x :: xs)) = 1 + sizeL (x :: xs) := by simp [sizeJ]
            omega
          have happ := hi (x :: xs) (gap ++ ind2) ['\n'] ('\n' :: gap) rest (by simp) hwf2
            (wsOnly_append hgap wsOnly_ind2) (by decide) (wsOnly_cons (by decide) hgap) hsz2
          simp only [List.append_assoc, List.cons_append, List.nil_append] at happ
          simp [happ]
  | obj kvs =>
      cases kvs with
      | nil =>
          have h2 : sizeJ (Json.obj []) = 2 := by simp [sizeJ, sizeM]
          have hf : 1 ≤ f := by omega
          obtain ⟨f2, rfl⟩ : ∃ f2, f = f2 + 1 := ⟨f - 1, by omega⟩
          rw [List.append_assoc, show strVal gap (Json.obj []) = ['\x7b', '\x7d'] by simp [strVal]]
          simp only [parseVal, List.cons_append, List.nil_append]
          rw [skipWs_append hws, skipWs_cons_notWs (by decide)]
          simp only [parseMembers]
          rw [skipWs_cons_notWs (by decide)]
          simp [objFold]
      | cons kv kvs =>
          rw [List.append_assoc, show strVal gap (Json.obj (kv :: kvs))
              = '\x7b' :: '\n' :: (strMembers (gap ++ ind2) (kv :: kvs) ++ ('\n' :: gap ++ ['\x7d']))
              by simp [strVal]]
          simp only [parseVal, List.cons_append, List.nil_append]
          rw [skipWs_append hws, skipWs_cons_notWs (by decide)]
          have hwf2 : wfM (kv :: kvs) = true := by simpa [wfV] using hwf
          have hsz2 : sizeM (kv :: kvs) ≤ f := by
            have : sizeJ (Json.obj (kv :: kvs)) = 1 + sizeM (kv :: kvs) := by simp [sizeJ]
            omega
          have happ := hm (kv :: kvs) (gap ++ ind2) ['\n'] ('\n' :: gap) rest (by simp) hwf2
            (wsOnly_append hgap wsOnly_ind2) (by decide) (wsOnly_cons (by decide) hgap) hsz2
          simp only [List.append_assoc, List.cons_append, List.nil_append] at happ
          simp [happ, objFold_id hwf2]

theorem pi_succ (f : Nat) (hv : PvP f) (hi : PiP f) : PiP (f + 1) := by
  intro xs gap ws1 ws2 rest hne hwf hgap hws1 hws2 hsz
  cases xs with
  | nil => exact absurd rfl hne
  | cons x xs2 =>
      obtain ⟨c0, cs, hc, hcw, hcrb, hcc, hcbr⟩ := strVal_head gap x
      rw [wfL] at hwf
      simp only [Bool.and_eq_true] at hwf
      rw [sizeL] at hsz
      cases xs2 with
      | nil =>
          have hszx : sizeJ x ≤ f := by
            have := sizeL_pos ([] : List Json)
            omega
          have hdig : digitHeadB (ws2 ++ ']' :: rest) = false := digitHeadB_ws hws2 (by decide)
          have hval := hv x gap [] (ws2 ++ ']' :: rest) hwf.1 hgap wsOnly_nil hdig hszx
          simp only [List.nil_append] at hval
          rw [show strItems gap [x] = gap ++ strVal gap x by simp [strItems]]
          simp only [parseItems]
          rw [show ws1 ++ (gap ++ strVal gap x) ++ ws2 ++ ']' :: rest
              = ws1 ++ (gap ++ (strVal gap x ++ (ws2 ++ ']' :: rest))) by simp]
          rw [skipWs_append hws1, skipWs_append hgap, hc, List.cons_append, skipWs_cons_notWs hcw]
          simp only [hcrb, ite_false, if_false]
          rw [← List.cons_append, ← hc, hval]
          simp only []
          rw [skipWs_append hws2, skipWs_cons_notWs (by decide)]
          simp
      | cons y ys =>
          have hszx : sizeJ x ≤ f := by
            have := sizeL_pos (y :: ys)
            omega
          have hszr : sizeL (y :: ys) ≤ f := by
            have := sizeJ_pos x
            omega
          have hdig : digitHeadB (',' :: '\n' :: (strItems gap (y :: ys) ++ (ws2 ++ ']' :: rest))) = false := by
            simp [digitHeadB]
          have hval := hv x gap [] (',' :: '\n' :: (strItems gap (y :: ys) ++ (ws2 ++ ']' :: rest)))
            hwf.1 hgap wsOnly_nil hdig hszx
          simp only [List.nil_append] at hval
          rw [show strItems gap (x :: y :: ys)
              = gap ++ strVal gap x ++ (',' :: '\n' :: strItems gap (y :: ys)) by simp [strItems]]
          simp only [parseItems]
          rw [show ws1 ++ (gap ++ strVal gap x ++ (',' :: '\n' :: strItems gap (y :: ys))) ++ ws2 ++ ']' :: rest
              = ws1 ++ (gap ++ (strVal gap x ++ (',' :: '\n' :: (strItems gap (y :: ys) ++ (ws2 ++ ']' :: rest))))) by simp]
          rw [skipWs_append hws1, skipWs_append hgap, hc, List.cons_append, skipWs_cons_notWs hcw]
          simp only [hcrb, ite_false, if_false]
          rw [← List.cons_append, ← hc, hval]
          simp only []
          rw [skipWs_cons_notWs (by decide)]
          have happ := hi (y :: ys) gap ['\n'] ws2 rest (by simp) hwf.2 hgap (by decide) hws2 hszr
          simp only [List.append_assoc, List.cons_append, List.nil_append] at happ
          simp [happ]

theorem pm_succ (f : Nat) (hv : PvP f) (hm : PmP f) : PmP (f + 1) := by
  intro kvs gap ws1 ws2 rest hne hwf hgap hws1 hws2 hsz
  cases kvs with
  | nil => exact absurd rfl hne
  | cons kv kvs2 =>
      obtain ⟨k, v⟩ := kv
      rw [wfM] at hwf
      simp only [Bool.and_eq_true, Bool.not_eq_eq_eq_not, Bool.not_true] at hwf
      rw [sizeM] at hsz
      cases kvs2 with
      | nil =>
          have hszv : sizeJ v ≤ f := by
            have := sizeM_pos ([] : List (String × Json))
            omega
          have hdig : digitHeadB (ws2 ++ '\x7d' :: rest) = false := digitHeadB_ws hws2 (by decide)
          have hval := hv v gap [' '] (ws2 ++ '\x7d' :: rest) hwf.1.2 hgap (by decide) hdig hszv
          simp only [List.cons_append, List.nil_append, List.append_assoc] at hval
          rw [show strMembers gap [(k, v)] = gap ++ qEsc k ++ (':' :: ' ' :: strVal gap v)
              by simp [strMembers]]
          simp only [parseMembers]
          rw [show ws1 ++ (gap ++ qEsc k ++ (':' :: ' ' :: strVal gap v)) ++ ws2 ++ '\x7d' :: rest
              = ws1 ++ (gap ++ ('"' :: (escL k.data ++ ('"' :: (':' :: ' ' :: (strVal gap v ++ (ws2 ++ '\x7d' :: rest)))))))
              by simp [qEsc]]
          rw [skipWs_append hws1, skipWs_append hgap, skipWs_cons_notWs (by decide)]
          simp only []
          rw [if_neg (show ¬ ('"' : Char) = '\x7d' by decide), if_true]
          rw [parseStrL_escL]
          simp +decide [hval, skipWs, isWsC]
          rw [skipWs_append hws2, skipWs_cons_notWs (by decide)]
          simp [strMk_data]
      | cons m kvs3 =>
          have hszv : sizeJ v ≤ f := by
            have := sizeM_pos (m :: kvs3)
            omega
          have hszr : sizeM (m :: kvs3) ≤ f := by
            have := sizeJ_pos v
            omega
          have hdig : digitHeadB (',' :: '\n' :: (strMembers gap (m :: kvs3) ++ (ws2 ++ '\x7d' :: rest))) = false := by
            simp [digitHeadB]
          have hval := hv v gap [' ']
            (',' :: '\n' :: (strMembers gap (m :: kvs3) ++ (ws2 ++ '\x7d' :: rest)))
            hwf.1.2 hgap (by decide) hdig hszv
          simp only [List.cons_append, List.nil_append, List.append_assoc] at hval
          rw [show strMembers gap ((k, v) :: m :: kvs3)
              = gap ++ qEsc k ++ (':' :: ' ' :: strVal gap v) ++ (',' :: '\n' :: strMembers gap (m :: kvs3))
              by simp [strMembers]]
          simp only [parseMembers]
          rw [show ws1 ++ (gap ++ qEsc k ++ (':' :: ' ' :: strVal gap v) ++ (',' :: '\n' :: strMembers gap (m :: kvs3))) ++ ws2 ++ '\x7d' :: rest
              = ws1 ++ (gap ++ ('"' :: (escL k.data ++ ('"' :: (':' :: ' ' :: (strVal gap v ++ (',' :: '\n' :: (strMembers gap (m :: kvs3) ++ (ws2 ++ '\x7d' :: rest)))))))))
              by simp [qEsc]]
          rw [skipWs_append hws1, skipWs_append hgap, skipWs_cons_notWs (by decide)]
          simp only []
          rw [if_neg (show ¬ ('"' : Char) = '\x7d' by decide), if_true]
          rw [parseStrL_escL]
          simp +decide [hval, skipWs, isWsC]
          have happ := hm (m :: kvs3) gap ['\n'] ws2 rest (by simp) hwf.2 hgap (by decide) hws2 hszr
          simp only [List.append_assoc, List.cons_append, List.nil_append] at happ
          simp [happ, strMk_data]

theorem p_zero : PvP 0 ∧ PiP 0 ∧ PmP 0 := by
  refine ⟨?_, ?_, ?_⟩
  · intro v _ _ _ _ _ _ _ hsz
    exact absurd hsz (by have := sizeJ_pos v; omega)
  · intro xs _ _ _ _ _ _ _ _ _ hsz
    exact absurd hsz (by have := sizeL_pos xs; omega)
  · intro kvs _ _ _ _ _ _ _ _ _ hsz
    exact absurd hsz (by have := sizeM_pos kvs; omega)

/-- Parsing inverts serialization, at every sufficient fuel. -/
theorem parseRT : ∀ fuel : Nat, PvP fuel ∧ PiP fuel ∧ PmP fuel := by
  intro fuel
  induction fuel with
  | zero => exact p_zero
  | succ f ih => exact ⟨pv_succ f ih.2.1 ih.2.2, pi_succ f ih.1 ih.2.1, pm_succ f ih.1 ih.2.2⟩

/-- JSON round trip: re-reading a manifest file written with
JSON.stringify(v, null, 2) yields the value that was written, for any value
whose objects have no duplicate keys (JavaScript objects never do). -/
theorem jsonParse_stringify2 (v : Json) (hwf : wfV v = true) :
    jsonParse (jsonStringify2 v) = some v := by
  rw [jsonParse, jsonStringify2]
  have hdata : (String.mk (strVal [] v)).data = strVal [] v := rfl
  rw [hdata]
  have hsz : sizeJ v ≤ 2 * (strVal [] v).length + 2 := by
    have := sizeJ_le [] v
    omega
  have h := (parseRT (2 * (strVal [] v).length + 2)).1 v [] [] [] hwf wsOnly_nil wsOnly_nil rfl hsz
  simp only [List.nil_append, List.append_nil] at h
  rw [h]
  simp [skipWs]

mutual

/-- JavaScript String() conversion of a value, used by template literals
(only string values occur on the claims\x27 paths). -/
def jsToDisplay : Json → String
  | .null => "null"
  | .bool true => "true"
  | .bool false => "false"
  | .num (.ofNat n) => String.mk (natStr n)
  | .num (.negSucc m) => String.mk ('-' :: natStr (m + 1))
  | .str s => s
  | .arr [] => ""
  | .arr (x :: xs) => jsToDisplay x ++ dispTail xs
  | .obj _ => "[object Object]"

def dispTail : List Json → String
  | [] => ""
  | x :: xs => "," ++ jsToDisplay x ++ dispTail xs

end

/-- String() of a possibly-undefined value (template literals print
`undefined` for it). -/
def jsValToString : Option Json → String
  | none => "undefined"
  | some j => jsToDisplay j

/-- The axios rejection as observed by the catch blocks: the optional chain
`error.response?.data?.error?.message` and the transport-level `error.message`. -/
structure AxiosErr where
  respErrMessage : Option String
  message : String
deriving DecidableEq, Repr

/-- Kinds of JavaScript exceptions thrown along the modelled paths. -/
inductive JsErr where
  | enoent
  | syntaxError
  | jsError (msg : String)
  | typeError (msg : String)
  | referenceError (name : String)
  | axiosError (e : AxiosErr)
deriving DecidableEq, Repr

/-- An HTTP request as assembled for axios. The Authorization header is
`Basic base64(user:token)`; base64 is an injective external encoding, so the
model records the pair it encodes. -/
structure HttpReq where
  method : String
  url : String
  authUser : String
  authToken : String
  body : Json
deriving DecidableEq, Repr

/-- Externally observable events of one run, in order. -/
inductive Ev where
  | log (s : String)
  | http (req : HttpReq) (ok : Bool)
  | readF (path : String)
  | clone (url dir : String)
  | rmrf (path : String)
  | chdir (path : String)
  | gitInit (dir : String)
  | remoteAdd (dir url : String)
  | writeF (path content : String)
deriving DecidableEq, Repr

/-- How the process terminates: falling off the end (exit 0), an explicit
process.exit, or an uncaught exception (Node terminates non-zero with a
stack trace, without running any catch block). -/
inductive Outcome where
  | exitOk
  | exit (code : Nat)
  | uncaught (e : JsErr)
deriving DecidableEq, Repr

/-- The run\x27s external inputs: the credentials file content (none =
absent), the remote API behaviour, the interactive answer, the process
start directory, the success of each git/filesystem step, and the content
of package.json inside the cloned template. -/
structure World where
  credFile : Option String
  net : HttpReq → Except AxiosErr Json
  answerName : String
  cwd0 : String
  cloneOk : Bool
  rmOk : Bool
  initOk : Bool
  remoteOk : Bool
  pkgFile : Option String

structure RunOut where
  trace : List Ev
  outcome : Outcome
  cwdEnd : String
deriving DecidableEq, Repr

instance instDecEqExcept {e a : Type} [DecidableEq e] [DecidableEq a] :
    DecidableEq (Except e a)
  | .error x, .error y =>
      match decEq x y with
      | isTrue h => isTrue (h ▸ rfl)
      | isFalse h => isFalse (fun he => h (Except.error.inj he))
  | .error _, .ok _ => isFalse (fun he => Except.noConfusion he)
  | .ok _, .error _ => isFalse (fun he => Except.noConfusion he)
  | .ok x, .ok y =>
      match decEq x y with
      | isTrue h => isTrue (h ▸ rfl)
      | isFalse h => isFalse (fun he => h (Except.ok.inj he))

/-- Property read `j[k]`: throws TypeError on null, yields the member (or
undefined) on objects, undefined on other primitives. -/
def jsMember (j : Json) (k : String) : Except JsErr (Option Json) :=
  match j with
  | .null => .error (.typeError ("Cannot read properties of null (reading \x27" ++ k ++ "\x27)"))
  | .obj kvs => .ok (getKey kvs k)
  | _ => .ok none

def jsTruthy : Json → Bool
  | .null => false
  | .bool b => b
  | .num n => n != 0
  | .str s => s != ""
  | .arr _ => true
  | .obj _ => true

def jsTruthyOpt : Option Json → Bool
  | none => false
  | some j => jsTruthy j

def credPath : String := "./bitbucket-credentials.json"

/-- Diagnostic printed inside getBitbucketCredentials (lines 20-25) for any
failure of the read-and-parse, including parse failures. -/
def loaderFileMissingMsg : String :=
  "\u274c Le fichier de credentials n\x27existe pas.\n        Pour cr\u00e9er le fichier, veuillez cr\u00e9er ./bitbucket-credentials.json avec le format :\n        \x7b\n          \"username\": \"votre_username\",\n          \"token\": \"votre_token\"\n        \x7d"

/-- Diagnostic printed by the callers\x27 catch for error.code === "ENOENT"
(lines 128-133 and 361-366). -/
def fileMissingMsg : String :=
  "\u274c Le fichier de credentials n\x27existe pas.\nPour cr\u00e9er le fichier, veuillez cr\u00e9er ./bitbucket-credentials.json avec le format :\n\x7b\n  \"username\": \"votre_username\",\n  \"token\": \"votre_token\"\n\x7d"

/-- Diagnostic for SyntaxError from JSON.parse (lines 135-137). -/
def malformedJsonMsg : String :=
  "\u274c Le fichier bitbucket-credentials.json contient du JSON invalide"

/-- Diagnostic prefix for any other credential read error (lines 139-142). -/
def credReadErrMsg : String :=
  "\u274c Erreur lors de la lecture du fichier de credentials:"

/-- Message of the Error thrown when username or token is falsy after a
successful parse (lines 149-154). -/
def incompleteCredMsg : String :=
  "\u274c Format de credentials invalide.\nLe fichier doit contenir les champs obligatoires :\n\x7b\n  \"username\": \"votre_username\",\n  \"token\": \"votre_token\"\n\x7d"

/-- Message of the Error thrown for an empty repository name (line 76). -/
def repoNameRequiredMsg : String := "\u274c Le nom du repository est requis"

/-- Diagnostic prefix of createBitbucketRepo\x27s catch (line 179). -/
def createFailMsg : String :=
  "\u274c Erreur lors de la cr\u00e9ation du repo Bitbucket:"

def creatingMsg : String := "\u27a1\ufe0f Cr\u00e9ation du repo Bitbucket..."

def createdMsg : String := "\u2705 Repo Bitbucket cr\u00e9\u00e9:"

def cannotCreateMsg : String := "\u274c Impossible de cr\u00e9er le repo Bitbucket"

def cloningMsg : String := "\u27a1\ufe0f Clonage du repo de base..."

def customMsg : String := "\u27a1\ufe0f Customisation des fichiers..."

def doneMsg : String := "\u2705 Projet initialis\u00e9 et cr\u00e9\u00e9 sur Bitbucket !"

def templateRepo : String := "git@bitbucket.org:lefigaro/data-vite-scaffolder.git"

def apiRepoBase : String := "https://api.bitbucket.org/2.0/repositories/lefigaro/"

/-- The `message` property of each modelled exception. -/
def jsErrMessage : JsErr → String
  | .enoent => "ENOENT: no such file or directory, open \x27./bitbucket-credentials.json\x27"
  | .syntaxError => "Unexpected token in JSON"
  | .jsError m => m
  | .typeError m => m
  | .referenceError n => n ++ " is not defined"
  | .axiosError e => e.message

/-- Fixed creation payload (lines 168-174): scm git, private, project DAT. -/
def createPayload : Json :=
  .obj [("scm", .str "git"), ("is_private", .bool true),
        ("project", .obj [("key", .str "DAT")])]

/-- getBitbucketCredentials (lines 13-29): read the fixed-path file, parse
it; on ANY failure print the file-missing diagnostic and rethrow the
original error (ENOENT from readFileSync, SyntaxError from JSON.parse). -/
def getBitbucketCredentials (credFile : Option String) : List Ev × Except JsErr Json :=
  match credFile with
  | none => ([.readF credPath, .log loaderFileMissingMsg], .error .enoent)
  | some content =>
    match jsonParse content with
    | none => ([.readF credPath, .log loaderFileMissingMsg], .error .syntaxError)
    | some j => ([.readF credPath], .ok j)

/-- The caller-side catch over getBitbucketCredentials (lines 126-145):
one distinct diagnostic per error kind. -/
def credKindMsg : JsErr → String
  | .enoent => fileMissingMsg
  | .syntaxError => malformedJsonMsg
  | e => credReadErrMsg ++ " " ++ jsErrMessage e

def mkCreateReq (user token name : String) : HttpReq :=
  ⟨"POST", apiRepoBase ++ name, user, token, createPayload⟩

/-- The success-path expression `response.data.links.html.href` (line 176):
an unconditional dereference chain. Dereferencing a missing `links` or
`links.html` throws a TypeError; a missing `href` on an existing
`links.html` object merely yields undefined. -/
def lookupHref (data : Json) : Except JsErr (Option Json) :=
  match jsMember data "links" with
  | .error e => .error e
  | .ok none => .error (.typeError "Cannot read properties of undefined (reading \x27html\x27)")
  | .ok (some links) =>
    match jsMember links "html" with
    | .error e => .error e
    | .ok none => .error (.typeError "Cannot read properties of undefined (reading \x27href\x27)")
    | .ok (some html) => jsMember html "href"

/-- createBitbucketRepo of the execSync variant (lines 120-184): load
credentials (printing the kind-specific diagnostic on failure and
rethrowing), validate that token and username are truthy (throwing the
incomplete-credentials Error), then POST to the fixed endpoint with the
repo name appended — with no validation of the name — and return
response.data.links.html.href; the catch around the request also catches
the dereference TypeErrors and prints the creation-failure diagnostic
with `error.response?.data?.error?.message || error.message`. -/
def createBitbucketRepo1 (w : World) (repoName : String) : List Ev × Except JsErr (Option Json) :=
  match getBitbucketCredentials w.credFile with
  | (evs, .error e) => (evs ++ [.log (credKindMsg e)], .error e)
  | (evs, .ok creds) =>
    match jsMember creds "token" with
    | .error e => (evs, .error e)
    | .ok tokenV =>
      if jsTruthyOpt tokenV = false then (evs, .error (.jsError incompleteCredMsg))
      else
        match jsMember creds "username" with
        | .error e => (evs, .error e)
        | .ok userV =>
          if jsTruthyOpt userV = false then (evs, .error (.jsError incompleteCredMsg))
          else
            let req := mkCreateReq (jsValToString userV) (jsValToString tokenV) repoName
            match w.net req with
            | .error aerr =>
                (evs ++ [.http req false,
                  .log (createFailMsg ++ " " ++ aerr.respErrMessage.getD aerr.message)],
                 .error (.axiosError aerr))
            | .ok data =>
                match lookupHref data with
                | .error e =>
                    (evs ++ [.http req true, .log (createFailMsg ++ " " ++ jsErrMessage e)],
                     .error e)
                | .ok href => (evs ++ [.http req true], .ok href)

/-- createBitbucketRepo of the zx variant (lines 351-417): identical to the
execSync variant except that the credentials file is read and parsed inline
(no helper printing the extra loader diagnostic). -/
def createBitbucketRepo2 (w : World) (repoName : String) : List Ev × Except JsErr (Option Json) :=
  match w.credFile with
  | none => ([.readF credPath, .log fileMissingMsg], .error .enoent)
  | some content =>
    match jsonParse content with
    | none => ([.readF credPath, .log malformedJsonMsg], .error .syntaxError)
    | some creds =>
      match jsMember creds "token" with
      | .error e => ([.readF credPath], .error e)
      | .ok tokenV =>
        if jsTruthyOpt tokenV = false then ([.readF credPath], .error (.jsError incompleteCredMsg))
        else
          match jsMember creds "username" with
          | .error e => ([.readF credPath], .error e)
          | .ok userV =>
            if jsTruthyOpt userV = false then
              ([.readF credPath], .error (.jsError incompleteCredMsg))
            else
              let req := mkCreateReq (jsValToString userV) (jsValToString tokenV) repoName
              match w.net req with
              | .error aerr =>
                  ([.readF credPath, .http req false,
                    .log (createFailMsg ++ " " ++ aerr.respErrMessage.getD aerr.message)],
                   .error (.axiosError aerr))
              | .ok data =>
                  match lookupHref data with
                  | .error e =>
                      ([.readF credPath, .http req true,
                        .log (createFailMsg ++ " " ++ jsErrMessage e)],
                       .error e)
                  | .ok href => ([.readF credPath, .http req true], .ok href)

/-- updateBitbucketRepoPermissions (lines 37-113). After the credential and
repository-name checks, line 79 evaluates `permission.toLowerCase()` where
`permission` is not defined anywhere in the module (nor is `permissionMap`
of line 80): in an ES module this throws a ReferenceError, so the
case-insensitive validation and the PUT request (lines 79-112) are
unreachable for every input. -/
def updateBitbucketRepoPermissions (w : World) (repoName : String) :
    List Ev × Except JsErr Nat :=
  match getBitbucketCredentials w.credFile with
  | (evs, .error e) => (evs ++ [.log (credKindMsg e)], .error e)
  | (evs, .ok creds) =>
    match jsMember creds "token" with
    | .error e => (evs, .error e)
    | .ok tokenV =>
      if jsTruthyOpt tokenV = false then (evs, .error (.jsError incompleteCredMsg))
      else
        match jsMember creds "username" with
        | .error e => (evs, .error e)
        | .ok userV =>
          if jsTruthyOpt userV = false then (evs, .error (.jsError incompleteCredMsg))
          else if repoName = "" then (evs, .error (.jsError repoNameRequiredMsg))
          else (evs, .error (.referenceError "permission"))

/-- Top-level run of the execSync variant (lines 186-252): prompt, create
the remote repo (only this step is inside a try/catch: on failure it prints
the cannot-create diagnostic and calls process.exit(1)); then, with no
surrounding try/catch: shallow clone of the fixed template into the project
directory, rmSync of its .git, chdir into it, git init, git remote add
origin with the returned URL, read package.json (relative to the new cwd),
set name and figdata.id, write it back with 2-space indentation, chdir back
to the saved initial directory. -/
def run1 (w : World) : RunOut :=
  let projectDir := w.answerName
  let t0 := [Ev.log creatingMsg]
  match createBitbucketRepo1 w projectDir with
  | (evs, .error _) => ⟨t0 ++ evs ++ [.log cannotCreateMsg], .exit 1, w.cwd0⟩
  | (evs, .ok href) =>
    let repoUrl := jsValToString href
    let dir := w.cwd0 ++ "/" ++ projectDir
    let t1 := t0 ++ evs ++
      [.log (createdMsg ++ " " ++ repoUrl), .log cloningMsg, .clone templateRepo dir]
    if w.cloneOk = false then ⟨t1, .uncaught (.jsError "git clone failed"), w.cwd0⟩
    else
      let t2 := t1 ++ [.rmrf (dir ++ "/.git")]
      if w.rmOk = false then ⟨t2, .uncaught (.jsError "rmSync failed"), w.cwd0⟩
      else
        let t3 := t2 ++ [.chdir dir, .gitInit dir]
        if w.initOk = false then ⟨t3, .uncaught (.jsError "git init failed"), dir⟩
        else
          let t4 := t3 ++ [.remoteAdd dir repoUrl]
          if w.remoteOk = false then ⟨t4, .uncaught (.jsError "git remote add failed"), dir⟩
          else
            let t5 := t4 ++ [.log customMsg, .readF (dir ++ "/package.json")]
            match w.pkgFile with
            | none => ⟨t5, .uncaught .enoent, dir⟩
            | some content =>
              match jsonParse content with
              | none => ⟨t5, .uncaught .syntaxError, dir⟩
              | some pkg =>
                match customizeManifest pkg projectDir with
                | none => ⟨t5, .uncaught (.typeError "Cannot set properties of undefined (setting \x27id\x27)"), dir⟩
                | some pkg2 =>
                    ⟨t5 ++ [.writeF (dir ++ "/package.json") (jsonStringify2 pkg2),
                      .chdir w.cwd0, .log doneMsg], .exitOk, w.cwd0⟩

/-- Top-level run of the zx variant (lines 419-469): the same flow, with the
rm/init/remote steps in one `cd ... && rm -rf .git && git init && git remote
add origin ...` shell line (short-circuiting at the first failing step, the
node process cwd never changes) and the manifest addressed as
projectDir/package.json from the start directory. -/
def run2 (w : World) : RunOut :=
  let projectDir := w.answerName
  let t0 := [Ev.log creatingMsg]
  match createBitbucketRepo2 w projectDir with
  | (evs, .error _) => ⟨t0 ++ evs ++ [.log cannotCreateMsg], .exit 1, w.cwd0⟩
  | (evs, .ok href) =>
    let repoUrl := jsValToString href
    let dir := w.cwd0 ++ "/" ++ projectDir
    let t1 := t0 ++ evs ++
      [.log (createdMsg ++ " " ++ repoUrl), .log cloningMsg, .clone templateRepo dir]
    if w.cloneOk = false then ⟨t1, .uncaught (.jsError "zx: git clone failed"), w.cwd0⟩
    else
      let t2 := t1 ++ [.rmrf (dir ++ "/.git")]
      if w.rmOk = false then ⟨t2, .uncaught (.jsError "zx: rm -rf .git failed"), w.cwd0⟩
      else
        let t3 := t2 ++ [.gitInit dir]
        if w.initOk = false then ⟨t3, .uncaught (.jsError "zx: git init failed"), w.cwd0⟩
        else
          let t4 := t3 ++ [.remoteAdd dir repoUrl]
          if w.remoteOk = false then ⟨t4, .uncaught (.jsError "zx: git remote add failed"), w.cwd0⟩
          else
            let t5 := t4 ++ [.log customMsg, .readF (w.cwd0 ++ "/" ++ (projectDir ++ "/package.json"))]
            match w.pkgFile with
            | none => ⟨t5, .uncaught .enoent, w.cwd0⟩
            | some content =>
              match jsonParse content with
              | none => ⟨t5, .uncaught .syntaxError, w.cwd0⟩
              | some pkg =>
                match customizeManifest pkg projectDir with
                | none => ⟨t5, .uncaught (.typeError "Cannot set properties of undefined (setting \x27id\x27)"), w.cwd0⟩
                | some pkg2 =>
                    ⟨t5 ++ [.writeF (w.cwd0 ++ "/" ++ (projectDir ++ "/package.json")) (jsonStringify2 pkg2),
                      .log doneMsg], .exitOk, w.cwd0⟩

def isHttpEv : Ev → Bool
  | .http _ _ => true
  | _ => false

def isHttpOkEv : Ev → Bool
  | .http _ true => true
  | _ => false

def isVcsEv : Ev → Bool
  | .clone _ _ => true
  | .rmrf _ => true
  | .gitInit _ => true
  | .remoteAdd _ _ => true
  | _ => false

def isWriteEv : Ev → Bool
  | .writeF _ _ => true
  | _ => false

/-- Local filesystem mutations: template clone, .git removal, git init,
remote registration, manifest write. -/
def isFsMutEv : Ev → Bool
  | .clone _ _ => true
  | .rmrf _ => true
  | .gitInit _ => true
  | .remoteAdd _ _ => true
  | .writeF _ _ => true
  | _ => false

theorem getCreds_safe (cf : Option String) :
    (getBitbucketCredentials cf).1.all (fun e => !isFsMutEv e && !isHttpOkEv e) = true := by
  unfold getBitbucketCredentials
  cases cf with
  | none => simp [isFsMutEv, isHttpOkEv]
  | some c =>
      rcases hp : jsonParse c with _ | j <;> simp [hp, isFsMutEv, isHttpOkEv]

/-- No event of the Provisioner is a filesystem mutation. -/
theorem create1_safe (w : World) (n : String) :
    (createBitbucketRepo1 w n).1.all (fun e => !isFsMutEv e) = true := by
  have hg := getCreds_safe w.credFile
  unfold createBitbucketRepo1
  rcases h : getBitbucketCredentials w.credFile with ⟨gevs, gres⟩
  rw [h] at hg
  simp only [List.all_eq_true, Bool.and_eq_true] at hg
  cases gres with
  | error e =>
      simp only [List.all_append, List.all_eq_true, Bool.and_eq_true, List.all_cons]
      constructor
      · intro e he; exact (hg e he).1
      · simp [isFsMutEv]
  | ok creds =>
      simp only []
      repeat' split
      all_goals
        simp only [List.all_append, List.all_eq_true, Bool.and_eq_true, List.all_cons,
          List.all_nil]
      all_goals
        first
        | (constructor
           · intro e he; exact (hg e he).1
           · simp [isFsMutEv])
        | (intro e he; exact (hg e he).1)

/-- When the Provisioner succeeds, its event list contains a successful
HTTP response event. -/
theorem create1_ok_hasOk (w : World) (n : String) {evs : List Ev} {href : Option Json}
    (h : createBitbucketRepo1 w n = (evs, Except.ok href)) :
    evs.all (fun e => !isHttpOkEv e) = false := by
  have hg := getCreds_safe w.credFile
  unfold createBitbucketRepo1 at h
  rcases hgc : getBitbucketCredentials w.credFile with ⟨gevs, gres⟩
  rw [hgc] at h hg
  cases gres with
  | error e => simp at h
  | ok creds =>
      simp only [] at h
      repeat' split at h
      all_goals simp at h
      all_goals
        obtain ⟨h1, h2⟩ := h
        subst h1
        simp [List.all_append, isHttpOkEv]

/-- Everything before the first successful HTTP response is a non-mutation. -/
def noMutBeforeOk (l : List Ev) : Bool :=
  (l.takeWhile (fun e => !isHttpOkEv e)).all (fun e => !isFsMutEv e)

theorem nmbo_append (l1 l2 : List Ev) (hsafe : l1.all (fun e => !isFsMutEv e) = true)
    (h2 : l1.all (fun e => !isHttpOkEv e) = true → noMutBeforeOk l2 = true) :
    noMutBeforeOk (l1 ++ l2) = true := by
  induction l1 with
  | nil => exact h2 rfl
  | cons e l1 ih =>
      simp only [List.all_cons, Bool.and_eq_true] at hsafe
      by_cases hok : isHttpOkEv e = true
      · simp [noMutBeforeOk, List.takeWhile, hok]
      · have hok2 : (!isHttpOkEv e) = true := by simp [hok]
        simp only [noMutBeforeOk, List.cons_append, List.takeWhile_cons, hok2, if_true,
          List.all_cons, Bool.and_eq_true, ite_true]
        refine ⟨hsafe.1, ?_⟩
        exact ih hsafe.2 (fun hall => h2 (by simp [List.all_cons, hok2, hall]))

/-- The run trace always extends the Provisioner events. -/
theorem run1_trace_shape (w : World) {evs : List Ev} {res : Except JsErr (Option Json)}
    (h : createBitbucketRepo1 w w.answerName = (evs, res)) :
    ∃ tail, (run1 w).trace = [Ev.log creatingMsg] ++ evs ++ tail := by
  unfold run1
  dsimp only
  rw [h]
  cases res with
  | error e => exact ⟨[Ev.log cannotCreateMsg], by simp⟩
  | ok href =>
      simp only []
      repeat' split
      all_goals
        exact ⟨_, by simp only [List.append_assoc]; rfl⟩

theorem all_append3 {p : Ev → Bool} {l2 : List Ev} (a c : Ev) (h : l2.all p = true)
    (ha : p a = true) (hc : p c = true) : ([a] ++ l2 ++ [c]).all p = true := by
  simp [List.all_append, h, ha, hc]

theorem run1_createFail (w : World) {evs : List Ev} {e : JsErr}
    (h : createBitbucketRepo1 w w.answerName = (evs, Except.error e)) :
    run1 w = ⟨[Ev.log creatingMsg] ++ evs ++ [Ev.log cannotCreateMsg], Outcome.exit 1, w.cwd0⟩ := by
  unfold run1
  dsimp only
  rw [h]

/-- C1: no local filesystem mutation (template clone, .git removal, git
init, remote registration, manifest write) ever precedes a successful
create-repository response in the run trace; and when the create-repository
step fails, the run exits with code 1 with no filesystem mutation at all. -/
theorem c1_no_fs_mutation_before_create_success (w : World) :
    noMutBeforeOk (run1 w).trace = true ∧
    ((createBitbucketRepo1 w w.answerName).2.isOk = false →
      (run1 w).outcome = Outcome.exit 1 ∧ (run1 w).trace.all (fun ev => !isFsMutEv ev) = true) := by
  constructor
  · rcases h : createBitbucketRepo1 w w.answerName with ⟨evs, res⟩
    have hsafe := create1_safe w w.answerName
    rw [h] at hsafe
    cases res with
    | error e =>
        rw [run1_createFail w h]
        show noMutBeforeOk ([Ev.log creatingMsg] ++ evs ++ [Ev.log cannotCreateMsg]) = true
        rw [List.append_assoc]
        apply nmbo_append _ _ (by simp [isFsMutEv])
        intro _
        apply nmbo_append _ _ hsafe
        intro _
        simp [noMutBeforeOk, List.takeWhile, isHttpOkEv, isFsMutEv]
    | ok href =>
        have hok := create1_ok_hasOk w w.answerName h
        obtain ⟨tail, htr⟩ := run1_trace_shape w h
        rw [htr, List.append_assoc]
        apply nmbo_append _ _ (by simp [isFsMutEv])
        intro _
        apply nmbo_append _ _ hsafe
        intro hall
        rw [hok] at hall
        exact absurd hall (by simp)
  · intro hfail
    rcases h : createBitbucketRepo1 w w.answerName with ⟨evs, res⟩
    have hsafe := create1_safe w w.answerName
    rw [h] at hsafe
    rw [h] at hfail
    cases res with
    | ok href => exact absurd hfail (by simp [Except.isOk, Except.toBool])
    | error e =>
        rw [run1_createFail w h]
        refine ⟨rfl, ?_⟩
        show ([Ev.log creatingMsg] ++ evs ++ [Ev.log cannotCreateMsg]).all (fun ev => !isFsMutEv ev) = true
        simp only at hsafe
        exact all_append3 _ _ hsafe (by simp [isFsMutEv]) (by simp [isFsMutEv])

/-- A well-formed credentials file content used by concrete scenarios. -/
def goodCredText : String := "\x7b\"username\": \"u\", \"token\": \"t\"\x7d"

/-- A remote that answers every request with a created repository whose web
link is the given URL. -/
def okResponder (url : String) : HttpReq → Except AxiosErr Json :=
  fun _ => Except.ok (Json.obj [("links", Json.obj [("html", Json.obj [("href", Json.str url)])])])

def demoUrl : String := "https://bitbucket.org/lefigaro/demo"

/-- A template manifest content used by concrete scenarios. -/
def pkgText : String :=
  "\x7b\"name\": \"old\", \"private\": true, \"figdata\": \x7b\"id\": \"old\", \"deploy\": \"s3\"\x7d\x7d"

/-- Scenario world: everything succeeds. -/
def wOk : World :=
  ⟨some goodCredText, okResponder demoUrl, "demo", "/home/user", true, true, true, true, some pkgText⟩

/-- Scenario world: the create-repository call is rejected by the remote. -/
def wCreateErr : World :=
  ⟨some goodCredText,
   fun _ => Except.error ⟨some "name already in use", "Request failed with status code 400"⟩,
   "demo", "/home/user", true, true, true, true, some pkgText⟩

theorem c1_witness :
    noMutBeforeOk (run1 wCreateErr).trace = true ∧
    (run1 wCreateErr).outcome = Outcome.exit 1 ∧
    (run1 wCreateErr).trace.all (fun ev => !isFsMutEv ev) = true := by
  refine ⟨(c1_no_fs_mutation_before_create_success wCreateErr).1, ?_⟩
  exact (c1_no_fs_mutation_before_create_success wCreateErr).2 (by decide)

theorem getKey_setKey_self (kvs : List (String × Json)) (k : String) (v : Json) :
    getKey (setKey kvs k v) k = some v := by
  induction kvs with
  | nil => simp [setKey, getKey]
  | cons kv rest ih =>
      obtain ⟨k1, v1⟩ := kv
      by_cases h : k1 = k
      · simp [setKey, h, getKey]
      · simp [setKey, h, getKey, ih]

theorem getKey_setKey_ne (kvs : List (String × Json)) {k k2 : String} (v : Json)
    (h : ¬k2 = k) : getKey (setKey kvs k v) k2 = getKey kvs k2 := by
  induction kvs with
  | nil =>
      show (if k = k2 then some v else getKey [] k2) = getKey [] k2
      rw [if_neg (fun he => h he.symm)]
  | cons kv rest ih =>
      obtain ⟨k1, v1⟩ := kv
      by_cases h1 : k1 = k
      · subst h1
        rw [setKey, if_pos rfl, getKey, getKey, if_neg (fun he => h he.symm),
          if_neg (fun he => h he.symm)]
      · rw [setKey, if_neg h1, getKey, getKey, ih]

theorem getKey_some_keyMem {kvs : List (String × Json)} {k : String} {v : Json}
    (h : getKey kvs k = some v) : keyMem k kvs = true := by
  induction kvs with
  | nil => simp [getKey] at h
  | cons kv rest ih =>
      obtain ⟨k1, v1⟩ := kv
      by_cases h1 : k1 = k
      · simp [keyMem, h1]
      · rw [getKey, if_neg h1] at h
        simp [keyMem, ih h]

theorem keyMem_tail {k1 k : String} {v1 : Json} {rest : List (String × Json)}
    (h1 : ¬k1 = k) (h : keyMem k ((k1, v1) :: rest) = true) : keyMem k rest = true := by
  rw [keyMem] at h
  simpa [h1] using h

theorem keysOf_setKey {kvs : List (String × Json)} {k : String} (v : Json)
    (h : keyMem k kvs = true) : keysOf (setKey kvs k v) = keysOf kvs := by
  induction kvs with
  | nil => simp [keyMem] at h
  | cons kv rest ih =>
      obtain ⟨k1, v1⟩ := kv
      by_cases h1 : k1 = k
      · simp [setKey, h1, keysOf]
      · have h2 := keyMem_tail h1 h
        simp [setKey, h1, keysOf] at ih ⊢
        exact ih h2

theorem keyMem_iff_keysOf {k : String} {kvs : List (String × Json)} :
    keyMem k kvs = true ↔ k ∈ keysOf kvs := by
  induction kvs with
  | nil => simp [keyMem, keysOf]
  | cons kv rest ih =>
      obtain ⟨k1, v1⟩ := kv
      simp [keyMem, keysOf, ih]
      constructor
      · rintro (h | h)
        · exact Or.inl h.symm
        · exact Or.inr (by simpa [keysOf] using h)
      · rintro (h | h)
        · exact Or.inl h.symm
        · exact Or.inr (by simpa [keysOf] using h)

theorem wfM_getKey {kvs : List (String × Json)} {k : String} {v : Json}
    (hm : wfM kvs = true) (h : getKey kvs k = some v) : wfV v = true := by
  induction kvs with
  | nil => simp [getKey] at h
  | cons kv rest ih =>
      obtain ⟨k1, v1⟩ := kv
      rw [wfM] at hm
      simp only [Bool.and_eq_true] at hm
      by_cases h1 : k1 = k
      · rw [getKey, if_pos h1] at h
        cases h
        exact hm.1.2
      · rw [getKey, if_neg h1] at h
        exact ih hm.2 h

theorem wfM_setKey {kvs : List (String × Json)} {k : String} {v : Json}
    (hm : wfM kvs = true) (hv : wfV v = true) (hk : keyMem k kvs = true) :
    wfM (setKey kvs k v) = true := by
  induction kvs with
  | nil => simp [keyMem] at hk
  | cons kv rest ih =>
      obtain ⟨k1, v1⟩ := kv
      rw [wfM] at hm
      simp only [Bool.and_eq_true, Bool.not_eq_eq_eq_not, Bool.not_true] at hm
      by_cases h1 : k1 = k
      · rw [setKey, if_pos h1, wfM]
        simp [hm.1.1, hv, hm.2]
      · have hk2 := keyMem_tail h1 hk
        rw [setKey, if_neg h1, wfM]
        have hkeys : keysOf (setKey rest k v) = keysOf rest := keysOf_setKey v hk2
        have hnm : keyMem k1 (setKey rest k v) = false := by
          cases hmem : keyMem k1 (setKey rest k v) with
          | false => rfl
          | true =>
              exfalso
              have h3 := keyMem_iff_keysOf.mp hmem
              rw [hkeys] at h3
              have h4 := keyMem_iff_keysOf.mpr h3
              rw [hm.1.1] at h4
              exact Bool.false_ne_true h4
        simp [hnm, hm.1.2, ih hm.2 hk2]

/-- C2: for every manifest object with a top-level "name" string and a
nested "figdata" object with an "id" string, and every project identifier,
the Manifest Customizer (pkg["name"] = id; pkg["figdata"]["id"] = id, then
JSON.stringify with 2-space indentation, lines 242-247) rewrites exactly
"name" and "figdata.id" to the identifier, preserves every other key, value
and key order, and re-reading the written file yields that same object. -/
theorem c2_manifest_roundtrip (kvs fk : List (String × Json)) (id nm0 id0 : String)
    (hwf : wfV (Json.obj kvs) = true)
    (hname : getKey kvs "name" = some (Json.str nm0))
    (hfig : getKey kvs "figdata" = some (Json.obj fk))
    (hid : getKey fk "id" = some (Json.str id0)) :
    ∃ kvs2 fk2,
      customizeManifest (Json.obj kvs) id = some (Json.obj kvs2) ∧
      getKey kvs2 "name" = some (Json.str id) ∧
      getKey kvs2 "figdata" = some (Json.obj fk2) ∧
      getKey fk2 "id" = some (Json.str id) ∧
      (∀ k, ¬k = "name" → ¬k = "figdata" → getKey kvs2 k = getKey kvs k) ∧
      (∀ k, ¬k = "id" → getKey fk2 k = getKey fk k) ∧
      keysOf kvs2 = keysOf kvs ∧ keysOf fk2 = keysOf fk ∧
      jsonParse (jsonStringify2 (Json.obj kvs2)) = some (Json.obj kvs2) := by
  have hwfm : wfM kvs = true := by simpa [wfV] using hwf
  have hfig1 : getKey (setKey kvs "name" (Json.str id)) "figdata" = some (Json.obj fk) := by
    rw [getKey_setKey_ne kvs _ (by decide), hfig]
  refine ⟨setKey (setKey kvs "name" (Json.str id)) "figdata"
      (Json.obj (setKey fk "id" (Json.str id))), setKey fk "id" (Json.str id), ?_, ?_, ?_, ?_, ?_, ?_, ?_, ?_, ?_⟩
  · rw [customizeManifest]
    simp only [hfig1]
  · rw [getKey_setKey_ne _ _ (by decide), getKey_setKey_self]
  · rw [getKey_setKey_self]
  · rw [getKey_setKey_self]
  · intro k hk1 hk2
    rw [getKey_setKey_ne _ _ hk2, getKey_setKey_ne _ _ hk1]
  · intro k hk
    rw [getKey_setKey_ne _ _ hk]
  · rw [keysOf_setKey _ (getKey_some_keyMem hfig1),
      keysOf_setKey _ (getKey_some_keyMem hname)]
  · rw [keysOf_setKey _ (getKey_some_keyMem hid)]
  · apply jsonParse_stringify2
    show wfM (setKey (setKey kvs "name" (Json.str id)) "figdata"
      (Json.obj (setKey fk "id" (Json.str id)))) = true
    have hwfk : wfM (setKey kvs "name" (Json.str id)) = true :=
      wfM_setKey hwfm (by rfl) (getKey_some_keyMem hname)
    have hwffk : wfM fk = true := by
      have := wfM_getKey hwfm hfig
      simpa [wfV] using this
    have hwffk2 : wfM (setKey fk "id" (Json.str id)) = true :=
      wfM_setKey hwffk (by rfl) (getKey_some_keyMem hid)
    exact wfM_setKey hwfk (by simpa [wfV] using hwffk2) (getKey_some_keyMem hfig1)

theorem c2_witness :
    wfV (Json.obj [("name", Json.str "old"), ("figdata", Json.obj [("id", Json.str "old"), ("deploy", Json.str "s3")]), ("license", Json.null)]) = true ∧
    ∃ kvs2 fk2,
      customizeManifest (Json.obj [("name", Json.str "old"), ("figdata", Json.obj [("id", Json.str "old"), ("deploy", Json.str "s3")]), ("license", Json.null)]) "demo"
        = some (Json.obj kvs2) ∧
      getKey kvs2 "name" = some (Json.str "demo") ∧
      getKey kvs2 "figdata" = some (Json.obj fk2) ∧
      getKey fk2 "id" = some (Json.str "demo") ∧
      getKey kvs2 "license" = getKey [("name", Json.str "old"), ("figdata", Json.obj [("id", Json.str "old"), ("deploy", Json.str "s3")]), ("license", Json.null)] "license" ∧
      jsonParse (jsonStringify2 (Json.obj kvs2)) = some (Json.obj kvs2) := by
  refine ⟨by decide, ?_⟩
  obtain ⟨kvs2, fk2, h1, h2, h3, h4, h5, h6, _, _, h9⟩ :=
    c2_manifest_roundtrip
      [("name", Json.str "old"), ("figdata", Json.obj [("id", Json.str "old"), ("deploy", Json.str "s3")]), ("license", Json.null)]
      [("id", Json.str "old"), ("deploy", Json.str "s3")]
      "demo" "old" "old" (by decide) (by decide) (by decide) (by decide)
  exact ⟨kvs2, fk2, h1, h2, h3, h4, h5 "license" (by decide) (by decide), h9⟩

/-- C8: a run that completes the manifest-customization step ends in the
directory it started in, having changed into the project directory in
between (lines 235, 238, 250). -/
theorem c8_cwd_restored (w : World) (h : (run1 w).outcome = Outcome.exitOk) :
    (run1 w).cwdEnd = w.cwd0 ∧
    Ev.chdir (w.cwd0 ++ "/" ++ w.answerName) ∈ (run1 w).trace ∧
    Ev.chdir w.cwd0 ∈ (run1 w).trace := by
  unfold run1 at h ⊢
  dsimp only at h ⊢
  revert h
  rcases createBitbucketRepo1 w w.answerName with ⟨evs, res⟩
  cases res with
  | error e => intro h; exact absurd h (by simp)
  | ok href =>
      intro h
      simp only [] at h ⊢
      repeat' split
      all_goals simp_all

theorem c8_witness :
    (run1 wOk).outcome = Outcome.exitOk ∧
    (run1 wOk).cwdEnd = wOk.cwd0 ∧
    Ev.chdir (wOk.cwd0 ++ "/" ++ wOk.answerName) ∈ (run1 wOk).trace ∧
    Ev.chdir wOk.cwd0 ∈ (run1 wOk).trace := by
  have h := c8_cwd_restored wOk (by decide)
  exact ⟨by decide, h.1, h.2.1, h.2.2⟩

/-- Inversion of a successful Provisioner call: there was a request whose
response succeeded and whose body, dereferenced as links.html.href, is the
returned value. -/
theorem create1_ok_inv (w : World) (n : String) {evs : List Ev} {href : Option Json}
    (h : createBitbucketRepo1 w n = (evs, Except.ok href)) :
    ∃ req data, Ev.http req true ∈ evs ∧ w.net req = Except.ok data ∧
      lookupHref data = Except.ok href := by
  unfold createBitbucketRepo1 at h
  rcases hg : getBitbucketCredentials w.credFile with ⟨gevs, gres⟩
  rw [hg] at h
  cases gres with
  | error e => simp at h
  | ok creds =>
      simp only [] at h
      rcases ht : jsMember creds "token" with e | tv
      · rw [ht] at h; simp at h
      · rw [ht] at h
        simp only [] at h
        by_cases htv : jsTruthyOpt tv = false
        · rw [if_pos htv] at h; simp at h
        · rw [if_neg htv] at h
          rcases hu : jsMember creds "username" with e | uv
          · rw [hu] at h; simp at h
          · rw [hu] at h
            simp only [] at h
            by_cases huv : jsTruthyOpt uv = false
            · rw [if_pos huv] at h; simp at h
            · rw [if_neg huv] at h
              rcases hn : w.net (mkCreateReq (jsValToString uv) (jsValToString tv) n)
                with aerr | data
              · rw [hn] at h; simp at h
              · rw [hn] at h
                simp only [] at h
                rcases hl : lookupHref data with e | hrefv
                · rw [hl] at h; simp at h
                · rw [hl] at h
                  simp only [Prod.mk.injEq, Except.ok.injEq] at h
                  obtain ⟨hevs, hhref⟩ := h
                  subst hhref
                  exact ⟨_, data, by simp [← hevs], hn, hl⟩

/-- C4: every URL registered as git remote origin equals links.html.href
extracted from the create-repository response body. -/
theorem c4_remote_url_from_response (w : World) (d u : String)
    (h : Ev.remoteAdd d u ∈ (run1 w).trace) :
    ∃ req data href, Ev.http req true ∈ (run1 w).trace ∧ w.net req = Except.ok data ∧
      lookupHref data = Except.ok href ∧ u = jsValToString href := by
  unfold run1 at h ⊢
  dsimp only at h ⊢
  revert h
  rcases hc : createBitbucketRepo1 w w.answerName with ⟨evs, res⟩
  have hsafe := create1_safe w w.answerName
  rw [hc] at hsafe
  have hevs : ∀ e2 ∈ evs, isFsMutEv e2 = false := by
    simpa [List.all_eq_true] using hsafe
  cases res with
  | error e =>
      intro h
      simp only [List.append_assoc, List.mem_append, List.mem_cons, List.not_mem_nil,
        or_false, false_or, reduceCtorEq] at h
      have hcontra := hevs _ h
      simp [isFsMutEv] at hcontra
  | ok href =>
      obtain ⟨req, data, hmem, hnet, hhref⟩ := create1_ok_inv w w.answerName hc
      simp only []
      repeat' split
      all_goals intro h
      all_goals
        simp only [List.append_assoc, List.mem_append, List.mem_cons, List.not_mem_nil,
          or_false, false_or, reduceCtorEq, Ev.remoteAdd.injEq] at h
      all_goals
        try (rcases h with h | ⟨hd, hu⟩
             · have hcontra := hevs _ h
               simp [isFsMutEv] at hcontra
             · exact ⟨req, data, href, by simp [List.mem_append, hmem], hnet, hhref, hu⟩)
      all_goals
        (have hcontra := hevs _ h
         simp [isFsMutEv] at hcontra)

theorem c4_witness :
    Ev.remoteAdd (wOk.cwd0 ++ "/" ++ wOk.answerName) demoUrl ∈ (run1 wOk).trace ∧
    ∃ req data href, Ev.http req true ∈ (run1 wOk).trace ∧ wOk.net req = Except.ok data ∧
      lookupHref data = Except.ok href ∧ demoUrl = jsValToString href := by
  refine ⟨by decide, ?_⟩
  exact c4_remote_url_from_response wOk (wOk.cwd0 ++ "/" ++ wOk.answerName) demoUrl (by decide)

/-- World with an empty interactive identifier and otherwise valid inputs. -/
def wEmptyId : World :=
  ⟨some goodCredText, fun _ => Except.error ⟨none, "boom"⟩, "", "/home/user",
   true, true, true, true, some pkgText⟩

/-- C7 counterexample: with valid credentials and the empty identifier, the
run still issues the create-repository request, against the bare collection
URL. -/
theorem c7_counterexample :
    wEmptyId.answerName = "" ∧
    Ev.http (mkCreateReq "u" "t" "") false ∈ (run1 wEmptyId).trace ∧
    (mkCreateReq "u" "t" "").url = "https://api.bitbucket.org/2.0/repositories/lefigaro/" := by
  decide

/-- C7 amended: the Provisioner performs no validation of the project
identifier at all; whenever the credentials load and validate, it issues
the create-repository request with the identifier (empty or not) appended
to the fixed endpoint. -/
theorem c7_no_identifier_validation (w : World) (n c : String) (creds : Json)
    (tv uv : Option Json)
    (hcf : w.credFile = some c) (hp : jsonParse c = some creds)
    (ht : jsMember creds "token" = Except.ok tv) (htv : jsTruthyOpt tv = true)
    (hu : jsMember creds "username" = Except.ok uv) (huv : jsTruthyOpt uv = true) :
    ∃ b, Ev.http (mkCreateReq (jsValToString uv) (jsValToString tv) n) b
        ∈ (createBitbucketRepo1 w n).1 := by
  unfold createBitbucketRepo1 getBitbucketCredentials
  rw [hcf]
  simp only []
  rw [hp]
  simp only []
  rw [ht]
  simp only []
  rw [htv]
  simp only [Bool.true_eq_false, if_false, ite_false]
  rw [hu]
  simp only []
  rw [huv]
  simp only [Bool.true_eq_false, if_false, ite_false]
  rcases hn : w.net (mkCreateReq (jsValToString uv) (jsValToString tv) n) with aerr | data
  · exact ⟨false, by simp⟩
  · simp only []
    rcases hl : lookupHref data with e | hrefv
    · exact ⟨true, by simp⟩
    · exact ⟨true, by simp⟩

theorem c7_witness :
    ∃ b, Ev.http (mkCreateReq "u" "t" "") b ∈ (createBitbucketRepo1 wEmptyId "").1 :=
  c7_no_identifier_validation wEmptyId "" goodCredText
    (Json.obj [("username", Json.str "u"), ("token", Json.str "t")])
    (some (Json.str "t")) (some (Json.str "u"))
    (by decide) (by decide) (by decide) (by decide) (by decide) (by decide)

/-- C6: with complete credentials and a non-empty repository name, the
Permission Updater throws ReferenceError (`permission` is not defined,
line 79) before any validation of a permission level or any PUT request:
the claimed case-insensitive validation and hardcoded-admin PUT are
unreachable. -/
theorem c6_permission_updater_reference_error :
    updateBitbucketRepoPermissions wOk "demo"
      = ([Ev.readF credPath], Except.error (JsErr.referenceError "permission")) ∧
    (updateBitbucketRepoPermissions wOk "demo").1.all (fun e => !isHttpEv e) = true ∧
    jsErrMessage (JsErr.referenceError "permission") = "permission is not defined" := by
  decide

/-- World whose create-repository response body has no links at all. -/
def wNoLinks : World :=
  ⟨some goodCredText, fun _ => Except.ok (Json.obj [("uuid", Json.str "x")]),
   "demo", "/home/user", true, true, true, true, some pkgText⟩

/-- World whose create-repository response body has links but no html. -/
def wNoHtml : World :=
  ⟨some goodCredText, fun _ => Except.ok (Json.obj [("links", Json.obj [])]),
   "demo", "/home/user", true, true, true, true, some pkgText⟩

/-- World whose create-repository response body has links.html but no href. -/
def wNoHref : World :=
  ⟨some goodCredText,
   fun _ => Except.ok (Json.obj [("links", Json.obj [("html", Json.obj [("title", Json.str "x")])])]),
   "demo", "/home/user", true, true, true, true, some pkgText⟩

/-- C9 counterexample: when links.html is missing the dereference TypeError
is caught by the Provisioner and reported with the RemoteCreationFailed
diagnostic (contradicting "not a RemoteCreationFailed diagnostic"), and
when only href is missing there is no property-access error at all: the
call returns undefined. -/
theorem c9_counterexample :
    (createBitbucketRepo1 wNoHtml "demo").2
      = Except.error (JsErr.typeError "Cannot read properties of undefined (reading \x27href\x27)") ∧
    Ev.log (createFailMsg ++ " " ++ "Cannot read properties of undefined (reading \x27href\x27)")
      ∈ (createBitbucketRepo1 wNoHtml "demo").1 ∧
    (createBitbucketRepo1 wNoLinks "demo").2
      = Except.error (JsErr.typeError "Cannot read properties of undefined (reading \x27html\x27)") ∧
    Ev.log (createFailMsg ++ " " ++ "Cannot read properties of undefined (reading \x27html\x27)")
      ∈ (createBitbucketRepo1 wNoLinks "demo").1 ∧
    (createBitbucketRepo1 wNoHref "demo").2 = Except.ok none := by
  decide

/-- C9 amended: the success path unconditionally dereferences
response.data.links.html.href. When links or links.html is missing, the
dereference throws a TypeError which the Provisioner catches, reports with
the RemoteCreationFailed diagnostic carrying the TypeError message, and
rethrows; when links.html exists but href is missing, the Provisioner
returns undefined without an error. -/
theorem c9_unconditional_dereference :
    (∀ data : Json, jsMember data "links" = Except.ok none →
      lookupHref data = Except.error
        (JsErr.typeError "Cannot read properties of undefined (reading \x27html\x27)")) ∧
    (∀ (data links : Json), jsMember data "links" = Except.ok (some links) →
      jsMember links "html" = Except.ok none →
      lookupHref data = Except.error
        (JsErr.typeError "Cannot read properties of undefined (reading \x27href\x27)")) ∧
    (∀ (data links html : Json), jsMember data "links" = Except.ok (some links) →
      jsMember links "html" = Except.ok (some html) →
      lookupHref data = jsMember html "href") ∧
    (∀ (w : World) (n : String) (evs : List Ev) (e : JsErr) (req : HttpReq),
      createBitbucketRepo1 w n = (evs, Except.error e) → Ev.http req true ∈ evs →
      Ev.log (createFailMsg ++ " " ++ jsErrMessage e) ∈ evs) := by
  refine ⟨?_, ?_, ?_, ?_⟩
  · intro data h1
    rw [lookupHref, h1]
  · intro data links h1 h2
    rw [lookupHref, h1]
    simp only []
    rw [h2]
  · intro data links html h1 h2
    rw [lookupHref, h1]
    simp only []
    rw [h2]
  · intro w n evs e req h hmem
    have hg := getCreds_safe w.credFile
    unfold createBitbucketRepo1 at h
    rcases hgc : getBitbucketCredentials w.credFile with ⟨gevs, gres⟩
    rw [hgc] at h hg
    simp only [List.all_eq_true, Bool.and_eq_true] at hg
    have hgok : ∀ e2 ∈ gevs, isHttpOkEv e2 = false := by
      intro e2 he2
      have := (hg e2 he2).2
      simpa using this
    cases gres with
    | error e2 =>
        simp only [Prod.mk.injEq] at h
        obtain ⟨hevs, _⟩ := h
        subst hevs
        simp only [List.mem_append, List.mem_cons, List.not_mem_nil, or_false] at hmem
        rcases hmem with hmem | hmem
        · have := hgok _ hmem
          simp [isHttpOkEv] at this
        · cases hmem
    | ok creds =>
        simp only [] at h
        rcases ht : jsMember creds "token" with e2 | tv
        · rw [ht] at h
          simp only [Prod.mk.injEq] at h
          obtain ⟨hevs, _⟩ := h
          subst hevs
          have := hgok _ hmem
          simp [isHttpOkEv] at this
        · rw [ht] at h
          simp only [] at h
          by_cases htv : jsTruthyOpt tv = false
          · rw [if_pos htv] at h
            simp only [Prod.mk.injEq] at h
            obtain ⟨hevs, _⟩ := h
            subst hevs
            have := hgok _ hmem
            simp [isHttpOkEv] at this
          · rw [if_neg htv] at h
            rcases hu : jsMember creds "username" with e2 | uv
            · rw [hu] at h
              simp only [Prod.mk.injEq] at h
              obtain ⟨hevs, _⟩ := h
              subst hevs
              have := hgok _ hmem
              simp [isHttpOkEv] at this
            · rw [hu] at h
              simp only [] at h
              by_cases huv : jsTruthyOpt uv = false
              · rw [if_pos huv] at h
                simp only [Prod.mk.injEq] at h
                obtain ⟨hevs, _⟩ := h
                subst hevs
                have := hgok _ hmem
                simp [isHttpOkEv] at this
              · rw [if_neg huv] at h
                rcases hn : w.net (mkCreateReq (jsValToString uv) (jsValToString tv) n)
                  with aerr | data
                · rw [hn] at h
                  simp only [Prod.mk.injEq] at h
                  obtain ⟨hevs, _⟩ := h
                  subst hevs
                  simp only [List.mem_append, List.mem_cons, List.not_mem_nil, or_false] at hmem
                  rcases hmem with hmem | hmem | hmem
                  · have := hgok _ hmem
                    simp [isHttpOkEv] at this
                  · simp at hmem
                  · cases hmem
                · rw [hn] at h
                  simp only [] at h
                  rcases hl : lookupHref data with e2 | hrefv
                  · rw [hl] at h
                    simp only [Prod.mk.injEq, Except.error.injEq] at h
                    obtain ⟨hevs, herr⟩ := h
                    subst hevs
                    subst herr
                    simp
                  · rw [hl] at h
                    simp at h
  
theorem c9_amended_witness :
    lookupHref (Json.obj [("uuid", Json.str "x")])
      = Except.error (JsErr.typeError "Cannot read properties of undefined (reading \x27html\x27)") ∧
    lookupHref (Json.obj [("links", Json.obj [])])
      = Except.error (JsErr.typeError "Cannot read properties of undefined (reading \x27href\x27)") ∧
    lookupHref (Json.obj [("links", Json.obj [("html", Json.obj [("title", Json.str "x")])])])
      = jsMember (Json.obj [("title", Json.str "x")]) "href" ∧
    Ev.log (createFailMsg ++ " " ++ jsErrMessage (JsErr.typeError "Cannot read properties of undefined (reading \x27html\x27)"))
      ∈ (createBitbucketRepo1 wNoLinks "demo").1 ∧
    Ev.log (createFailMsg ++ " " ++ jsErrMessage (JsErr.typeError "Cannot read properties of undefined (reading \x27href\x27)"))
      ∈ (createBitbucketRepo1 wNoHtml "demo").1 := by
  refine ⟨?_, ?_, ?_, ?_, ?_⟩
  · exact c9_unconditional_dereference.1 (Json.obj [("uuid", Json.str "x")]) (by decide)
  · exact c9_unconditional_dereference.2.1 (Json.obj [("links", Json.obj [])]) (Json.obj [])
      (by decide) (by decide)
  · exact c9_unconditional_dereference.2.2.1 (Json.obj [("links", Json.obj [("html", Json.obj [("title", Json.str "x")])])])
      (Json.obj [("html", Json.obj [("title", Json.str "x")])]) (Json.obj [("title", Json.str "x")])
      (by decide) (by decide)
  · exact c9_unconditional_dereference.2.2.2 wNoLinks "demo" _
      (JsErr.typeError "Cannot read properties of undefined (reading \x27html\x27)")
      (mkCreateReq "u" "t" "demo") (by decide) (by decide)
  · exact c9_unconditional_dereference.2.2.2 wNoHtml "demo" _
      (JsErr.typeError "Cannot read properties of undefined (reading \x27href\x27)")
      (mkCreateReq "u" "t" "demo") (by decide) (by decide)

/-- C3: the credential loading distinguishes the three failure causes with
distinct error kinds and distinct diagnostics — ENOENT/file-missing when
the file is absent, SyntaxError/invalid-JSON when parsing fails, and the
incomplete-credentials Error when either required field (username or
token) is absent or otherwise falsy after a
successful parse — and an absent credentials file makes the run exit with
code 1 printing the file-missing diagnostic and issuing no HTTP request. -/
theorem c3_credential_failure_kinds :
    (∀ w : World, w.credFile = none →
      run1 w = ⟨[Ev.log creatingMsg, Ev.readF credPath, Ev.log loaderFileMissingMsg,
                 Ev.log fileMissingMsg, Ev.log cannotCreateMsg], Outcome.exit 1, w.cwd0⟩ ∧
      (run1 w).trace.all (fun e => !isHttpEv e) = true) ∧
    (∀ (w : World) (c : String), w.credFile = some c → jsonParse c = none →
      (createBitbucketRepo1 w w.answerName).2 = Except.error JsErr.syntaxError ∧
      Ev.log malformedJsonMsg ∈ (createBitbucketRepo1 w w.answerName).1) ∧
    (∀ (w : World) (c : String) (creds : Json) (tv uv : Option Json),
      w.credFile = some c → jsonParse c = some creds →
      jsMember creds "token" = Except.ok tv → jsMember creds "username" = Except.ok uv →
      (jsTruthyOpt tv = false ∨ jsTruthyOpt uv = false) →
      (createBitbucketRepo1 w w.answerName).2 = Except.error (JsErr.jsError incompleteCredMsg)) ∧
    (¬fileMissingMsg = malformedJsonMsg ∧ ¬fileMissingMsg = incompleteCredMsg ∧
     ¬malformedJsonMsg = incompleteCredMsg ∧
     ¬JsErr.enoent = JsErr.syntaxError ∧ ¬JsErr.enoent = JsErr.jsError incompleteCredMsg ∧
     ¬JsErr.syntaxError = JsErr.jsError incompleteCredMsg) := by
  refine ⟨?_, ?_, ?_, by decide⟩
  · intro w h
    have hr : run1 w = ⟨[Ev.log creatingMsg, Ev.readF credPath, Ev.log loaderFileMissingMsg,
        Ev.log fileMissingMsg, Ev.log cannotCreateMsg], Outcome.exit 1, w.cwd0⟩ := by
      unfold run1 createBitbucketRepo1 getBitbucketCredentials
      rw [h]
      dsimp only
      simp [credKindMsg]
    exact ⟨hr, by rw [hr]; rfl⟩
  · intro w c h hp
    unfold createBitbucketRepo1 getBitbucketCredentials
    rw [h]
    simp only []
    rw [hp]
    simp [credKindMsg]
  · intro w c creds tv uv h hp ht hu hfalsy
    unfold createBitbucketRepo1 getBitbucketCredentials
    rw [h]
    simp only []
    rw [hp]
    simp only []
    rw [ht]
    simp only []
    cases htv : jsTruthyOpt tv with
    | false => simp [htv]
    | true =>
        have huv : jsTruthyOpt uv = false := by
          rcases hfalsy with h0 | h0
          · rw [htv] at h0
            exact absurd h0 (by simp)
          · exact h0
        rw [if_neg (by simp [htv])]
        rw [hu]
        simp only []
        simp [huv]

/-- World without a credentials file. -/
def wNoCred : World :=
  ⟨none, fun _ => Except.error ⟨none, "unused"⟩, "demo", "/home/user",
   true, true, true, true, some pkgText⟩

/-- World with a credentials file that is not valid JSON. -/
def wBadJson : World :=
  ⟨some "\x7bnot json", fun _ => Except.error ⟨none, "unused"⟩, "demo", "/home/user",
   true, true, true, true, some pkgText⟩

/-- World with parseable credentials missing the token field. -/
def wIncomplete : World :=
  ⟨some "\x7b\"username\": \"u\"\x7d", fun _ => Except.error ⟨none, "unused"⟩, "demo",
   "/home/user", true, true, true, true, some pkgText⟩

/-- World with parseable credentials carrying a token but no username. -/
def wNoUser : World :=
  ⟨some "\x7b\"token\": \"t\"\x7d", fun _ => Except.error ⟨none, "unused"⟩, "demo",
   "/home/user", true, true, true, true, some pkgText⟩

set_option maxRecDepth 20000 in
theorem c3_witness :
    ((run1 wNoCred).outcome = Outcome.exit 1 ∧
     Ev.log fileMissingMsg ∈ (run1 wNoCred).trace ∧
     (run1 wNoCred).trace.all (fun e => !isHttpEv e) = true) ∧
    ((createBitbucketRepo1 wBadJson wBadJson.answerName).2 = Except.error JsErr.syntaxError ∧
     Ev.log malformedJsonMsg ∈ (createBitbucketRepo1 wBadJson wBadJson.answerName).1) ∧
    (createBitbucketRepo1 wIncomplete wIncomplete.answerName).2
      = Except.error (JsErr.jsError incompleteCredMsg) ∧
    (createBitbucketRepo1 wNoUser wNoUser.answerName).2
      = Except.error (JsErr.jsError incompleteCredMsg) := by
  obtain ⟨h1, h2, h3, _⟩ := c3_credential_failure_kinds
  obtain ⟨ha, hb⟩ := h1 wNoCred rfl
  refine ⟨⟨by rw [ha], by rw [ha]; decide, hb⟩, h2 wBadJson "\x7bnot json" rfl (by decide),
    ?_, ?_⟩
  · exact h3 wIncomplete "\x7b\"username\": \"u\"\x7d"
      (Json.obj [("username", Json.str "u")]) none (some (Json.str "u"))
      rfl (by decide) (by decide) (by decide) (Or.inl (by decide))
  · exact h3 wNoUser "\x7b\"token\": \"t\"\x7d"
      (Json.obj [("token", Json.str "t")]) (some (Json.str "t")) none
      rfl (by decide) (by decide) (by decide) (Or.inr (by decide))

/-- World where the template clone fails. -/
def wCloneFail : World :=
  ⟨some goodCredText, okResponder demoUrl, "demo", "/home/user",
   false, true, true, true, some pkgText⟩

/-- C5 counterexample: a clone failure in the workspace-initialization
steps is not caught by the top-level run — the process dies on an uncaught
exception instead of the catch printing a diagnostic and exiting 1. -/
theorem c5_counterexample :
    (run1 wCloneFail).outcome = Outcome.uncaught (JsErr.jsError "git clone failed") ∧
    ¬(run1 wCloneFail).outcome = Outcome.exit 1 ∧
    Ev.clone templateRepo (wCloneFail.cwd0 ++ "/" ++ wCloneFail.answerName)
      ∈ (run1 wCloneFail).trace := by
  decide

/-- C5 amended: only failures of the provisioning step are caught by the
top-level run (diagnostic plus process.exit(1)); failures of the
workspace-initialization steps (clone, history removal, re-init, remote
registration) are not caught and terminate the run as uncaught
exceptions. -/
theorem c5_only_provisioning_caught (w : World) :
    ((createBitbucketRepo1 w w.answerName).2.isOk = false →
      (run1 w).outcome = Outcome.exit 1 ∧ Ev.log cannotCreateMsg ∈ (run1 w).trace) ∧
    ((createBitbucketRepo1 w w.answerName).2.isOk = true →
      (w.cloneOk = false → (run1 w).outcome = Outcome.uncaught (JsErr.jsError "git clone failed")) ∧
      (w.cloneOk = true → w.rmOk = false →
        (run1 w).outcome = Outcome.uncaught (JsErr.jsError "rmSync failed")) ∧
      (w.cloneOk = true → w.rmOk = true → w.initOk = false →
        (run1 w).outcome = Outcome.uncaught (JsErr.jsError "git init failed")) ∧
      (w.cloneOk = true → w.rmOk = true → w.initOk = true → w.remoteOk = false →
        (run1 w).outcome = Outcome.uncaught (JsErr.jsError "git remote add failed"))) := by
  rcases hc : createBitbucketRepo1 w w.answerName with ⟨evs, res⟩
  cases res with
  | error e =>
      constructor
      · intro _
        rw [run1_createFail w hc]
        exact ⟨rfl, by simp⟩
      · intro hok
        exact absurd hok (by simp [Except.isOk, Except.toBool])
  | ok u =>
      constructor
      · intro hfail
        exact absurd hfail (by simp [Except.isOk, Except.toBool])
      · intro _
        unfold run1
        dsimp only
        rw [hc]
        refine ⟨?_, ?_, ?_, ?_⟩
        · intro h1
          simp [h1]
        · intro h1 h2
          simp [h1, h2]
        · intro h1 h2 h3
          simp [h1, h2, h3]
        · intro h1 h2 h3 h4
          simp [h1, h2, h3, h4]

theorem c5_witness :
    ((run1 wCreateErr).outcome = Outcome.exit 1 ∧
     Ev.log cannotCreateMsg ∈ (run1 wCreateErr).trace) ∧
    (run1 wCloneFail).outcome = Outcome.uncaught (JsErr.jsError "git clone failed") := by
  refine ⟨(c5_only_provisioning_caught wCreateErr).1 (by decide), ?_⟩
  exact ((c5_only_provisioning_caught wCloneFail).2 (by decide)).1 rfl

/-- The two variants of createBitbucketRepo return the same result and, for
any event predicate blind to file reads and console logs, the same filtered
event list: the only differences between the two are the extra loader
diagnostic line and the inline read. -/
theorem create_agree (w : World) (n : String)
    (p : Ev → Bool) (hr : ∀ s, p (Ev.readF s) = false) (hl : ∀ s, p (Ev.log s) = false) :
    (createBitbucketRepo1 w n).2 = (createBitbucketRepo2 w n).2 ∧
    (createBitbucketRepo1 w n).1.filter p = (createBitbucketRepo2 w n).1.filter p := by
  unfold createBitbucketRepo1 createBitbucketRepo2 getBitbucketCredentials
  cases hcf : w.credFile with
  | none => simp [hr, hl]
  | some c =>
      cases hp : jsonParse c with
      | none => simp [hp, hr, hl]
      | some creds =>
          simp only [hp]
          repeat' split
          all_goals simp_all [hr, hl, List.filter_append]

/-- For any event predicate blind to file reads, console logs and directory
changes, the two top-level runs produce the same filtered trace. -/
theorem run_filter_agree (w : World) (p : Ev → Bool)
    (hr : ∀ s, p (Ev.readF s) = false) (hl : ∀ s, p (Ev.log s) = false)
    (hcd : ∀ s, p (Ev.chdir s) = false) :
    (run1 w).trace.filter p = (run2 w).trace.filter p := by
  obtain ⟨hres, hfil⟩ := create_agree w w.answerName p hr hl
  unfold run1 run2
  dsimp only
  rcases h1 : createBitbucketRepo1 w w.answerName with ⟨e1, r1⟩
  rcases h2 : createBitbucketRepo2 w w.answerName with ⟨e2, r2⟩
  rw [h1, h2] at hres hfil
  dsimp only at hres hfil
  cases r1 with
  | error err =>
      cases r2 with
      | error err2 => simp [List.filter_append, hr, hl, hfil]
      | ok href => exact absurd hres (by simp)
  | ok href =>
      cases r2 with
      | error err2 => exact absurd hres (by simp)
      | ok href2 =>
          have hh : href = href2 := by simpa using hres
          subst hh
          dsimp only
          repeat' split
          all_goals
            simp_all [List.filter_append, List.filter_cons, hr, hl, hcd, hfil,
              String.append_assoc]

/-- C10: the execSync-based and zx-based variants are behaviorally
equivalent at the specified interface — for the same credentials file,
interactive identifier and external-system responses they issue the same
HTTP requests, perform the same version-control operations (clone of the
fixed template, history removal, re-init, origin registration, with the
same directories and URL), and write the same rewritten manifest bytes to
the same path. -/
theorem c10_variants_equivalent (w : World) :
    (run1 w).trace.filter isHttpEv = (run2 w).trace.filter isHttpEv ∧
    (run1 w).trace.filter isVcsEv = (run2 w).trace.filter isVcsEv ∧
    (run1 w).trace.filter isWriteEv = (run2 w).trace.filter isWriteEv := by
  refine ⟨?_, ?_, ?_⟩
  · exact run_filter_agree w isHttpEv (fun _ => rfl) (fun _ => rfl) (fun _ => rfl)
  · exact run_filter_agree w isVcsEv (fun _ => rfl) (fun _ => rfl) (fun _ => rfl)
  · exact run_filter_agree w isWriteEv (fun _ => rfl) (fun _ => rfl) (fun _ => rfl)

end FD
